import Mathlib

/-!
Verification development for the meshade workflow-execution repository.

The definitions below are a shallow embedding, translated from the Python
sources:

* `src/app/workflow_engine.py` — the frontier-based `WorkflowEngine`,
  `WorkflowExecutionContext`, and the per-kind node executors;
* `src/pre-wf/app/workflow_schema.py` — `WorkflowNodeType`,
  `WorkflowNodeStatus`, `WorkflowEdgeConfig`, `WorkflowConfig`;
* `src/app/workflow.py` — `EventBus`;
* `src/app/schema.py` — `Workflow.link`;
* `src/app/nodes.py` — `create_node` and the `_NODE_TYPES` table;
* `src/app/manager.py` — `WorkflowManager.add`.

Python dictionaries are modelled as association lists (first match wins on
lookup, update replaces in place or appends, preserving insertion order, as
CPython dicts do).  Python sets of node indices are modelled as `Finset Nat`.
The cooperative `asyncio` scheduling of the engine is modelled as a labelled
transition relation: each constructor corresponds to one atomic mutation the
scheduler task performs (draining one ready node, processing one finished
task's success or failure).  A node executor's body and the processing of its
result are folded into a single completion step; the oracle parameter gives a
meaning to the `exec`/`Template.render` calls of the transform executor, which
the engine treats as opaque user code.
-/

namespace Meshade

/-- Runtime values flowing through a workflow: the subset of Python values the
engine's executors construct and compare (`None`, strings, ints, bools, lists,
dicts). -/
inductive Val where
  | vnone : Val
  | vstr : String → Val
  | vint : Int → Val
  | vbool : Bool → Val
  | vlist : List Val → Val
  | vdict : List (String × Val) → Val

/-- Structural equality on `Val`, mirroring Python `==` on these values. -/
def Val.beq : Val → Val → Bool
  | .vnone, .vnone => true
  | .vstr a, .vstr b => a == b
  | .vint a, .vint b => a == b
  | .vbool a, .vbool b => a == b
  | .vlist [], .vlist [] => true
  | .vlist (x :: xs), .vlist (y :: ys) => x.beq y && (Val.vlist xs).beq (.vlist ys)
  | .vdict [], .vdict [] => true
  | .vdict ((k, x) :: xs), .vdict ((l, y) :: ys) =>
      k == l && x.beq y && (Val.vdict xs).beq (.vdict ys)
  | _, _ => false

instance : BEq Val := ⟨Val.beq⟩

/-- A Python dict with string keys, as the engine uses for
`context.variables`, node outputs and mappings. -/
abbrev VarMap := List (String × Val)

/-- Dict lookup: `d.get(k)` — first matching key (keys are unique by
construction of `vmSet`). -/
def vmGet (m : VarMap) (k : String) : Option Val :=
  (m.find? (fun p => p.1 = k)).map (·.2)

/-- Dict item assignment `d[k] = v`: replace in place if the key is present,
append otherwise (CPython dict semantics). -/
def vmSet (m : VarMap) (k : String) (v : Val) : VarMap :=
  if (m.find? (fun p => p.1 = k)).isSome then
    m.map (fun p => if p.1 = k then (k, v) else p)
  else
    m ++ [(k, v)]

/-- Dict `d.update(other)`: assign every item of `other` in order. -/
def vmUpdate (m other : VarMap) : VarMap :=
  other.foldl (fun acc p => vmSet acc p.1 p.2) m

/-- Lookup in a `Nat`-keyed dict (`node_outputs`, `pending_user_inputs`,
`loop_iterations`). -/
def alGet {α : Type} (m : List (Nat × α)) (k : Nat) : Option α :=
  (m.find? (fun p => p.1 = k)).map (·.2)

/-- Assignment in a `Nat`-keyed dict: replace in place or append. -/
def alSet {α : Type} : List (Nat × α) → Nat → α → List (Nat × α)
  | [], k, v => [(k, v)]
  | p :: ps, k, v => if p.1 = k then (k, v) :: ps else p :: alSet ps k v

theorem alGet_alSet_self {α : Type} (m : List (Nat × α)) (n : Nat) (v : α) :
    alGet (alSet m n v) n = some v := by
  induction m with
  | nil => simp [alGet, alSet]
  | cons p ps ih =>
    by_cases h : p.1 = n <;> simp [alSet, alGet, h] at ih ⊢
    exact ih

theorem alGet_alSet_ne {α : Type} (m : List (Nat × α)) {k n : Nat}
    (h : k ≠ n) (v : α) : alGet (alSet m n v) k = alGet m k := by
  induction m with
  | nil => simp [alGet, alSet, Ne.symm h]
  | cons p ps ih =>
    by_cases hp : p.1 = n
    · have hk : ¬p.1 = k := by rw [hp]; exact Ne.symm h
      simp [alSet, alGet, hp, hk, Ne.symm h]
    · by_cases hk : p.1 = k
      · simp [alSet, alGet, hp, hk, h]
      · simp only [alSet, if_neg hp]
        simp only [alGet] at ih ⊢
        rw [List.find?_cons_of_neg _ (by simp [hk]),
          List.find?_cons_of_neg _ (by simp [hk])]
        exact ih

/-- Python truthiness on the modelled values (`if break_value:` …). -/
def pyTruthy : Val → Bool
  | .vnone => false
  | .vstr s => s ≠ ""
  | .vint n => n ≠ 0
  | .vbool b => b
  | .vlist xs => !xs.isEmpty
  | .vdict m => !m.isEmpty

/-- Mapping dict of a node config (`input_mapping` / `output_mapping`):
target key → source path. -/
abbrev Mapping := List (String × String)

/-- One workflow node, as the engine's `workflow_schema` config classes
describe it.  The kind tags and per-kind fields are taken from
`src/pre-wf/app/workflow_schema.py` (`WorkflowNodeType`) together with the
fields each executor in `src/app/workflow_engine.py` reads from its config
(`DecisionNodeConfig.condition_field`/`branches`, `MergeNodeConfig.strategy`/
`wait_for`, `ParallelNodeConfig.branches`, `LoopNodeConfig.max_iterations`/
`break_on`/`condition_field`/`condition_value`/`body`,
`TransformNodeConfig.transform_type`/`transform_script` and the
`input_mapping`/`output_mapping` pairs). -/
inductive NodeCfg where
  | start (initial_data : Option VarMap)
  | end_ (output_mapping : Option Mapping)
  | decision (condition_field : String) (branches : List (String × Nat))
  | merge (strategy : String) (wait_for : Option (List Nat))
  | parallel (branches : List Nat)
  | loop (max_iterations : Nat) (break_on : Option String)
      (condition_field : Option String) (condition_value : Val) (body : Option Nat)
  | agent (agent : Nat) (input_mapping output_mapping : Option Mapping)
  | prompt (prompt : Nat) (input_mapping output_mapping : Option Mapping)
  | transform (transform_type transform_script : String)
      (input_mapping output_mapping : Option Mapping)
  | tool (tool : Nat) (input_mapping output_mapping : Option Mapping)
  | user_input (prompt_text : String) (timeout : Option Nat)

/-- The string value of a node's `WorkflowNodeType` tag
(`src/pre-wf/app/workflow_schema.py:11`, a `str`-valued enum; the engine's
executor table additionally registers `parallel` and `loop`). -/
def NodeCfg.typeTag : NodeCfg → String
  | .start _ => "start"
  | .end_ _ => "end"
  | .decision _ _ => "decision"
  | .merge _ _ => "merge"
  | .parallel _ => "parallel"
  | .loop _ _ _ _ _ => "loop"
  | .agent _ _ _ => "agent"
  | .prompt _ _ _ => "prompt"
  | .transform _ _ _ _ => "transform"
  | .tool _ _ _ => "tool"
  | .user_input _ _ => "user_input"

/-- A node kind is "simple" when its executor neither reads nor mutates the
frontier sets of the execution context: every kind except `decision`
(`DecisionNodeExecutor.execute`, lines 254-264), `parallel`
(`ParallelNodeExecutor.execute`, lines 311-318) and `loop`
(`LoopNodeExecutor.execute`, lines 352-355). -/
def NodeCfg.isSimple : NodeCfg → Prop
  | .decision _ _ => False
  | .parallel _ => False
  | .loop _ _ _ _ _ => False
  | _ => True

instance : ∀ n : NodeCfg, Decidable n.isSimple := by
  intro n
  cases n <;> simp [NodeCfg.isSimple] <;> infer_instance

/-- `WorkflowEdgeConfig` (`src/pre-wf/app/workflow_schema.py:44`): edges
reference nodes by zero-based index. -/
structure WorkflowEdgeConfig where
  source : Nat
  target : Nat
  source_slot : String := "output"
  target_slot : String := "input"
  filter : Option String := none
deriving DecidableEq, Repr

/-- `WorkflowConfig` (`src/pre-wf/app/workflow_schema.py:56`), restricted to
the fields the engine reads. -/
structure WorkflowConfig where
  nodes : List NodeCfg
  edges : List WorkflowEdgeConfig
  vars : VarMap := []

/-- The `validate_edges` pydantic validator
(`src/pre-wf/app/workflow_schema.py:63`): every edge's source and target
index is in range. -/
def WorkflowConfig.edgesValid (w : WorkflowConfig) : Prop :=
  ∀ e ∈ w.edges, e.source < w.nodes.length ∧ e.target < w.nodes.length

/-- `node_dependencies[n]` as built by `_build_dependency_graph`
(`workflow_engine.py:88-97`): the set of sources of edges into `n`. -/
def deps (w : WorkflowConfig) (n : Nat) : Finset Nat :=
  ((w.edges.filter (fun e => e.target = n)).map (fun e => e.source)).toFinset

/-- `node_dependents[n]`: the set of targets of edges out of `n`. -/
def dependents (w : WorkflowConfig) (n : Nat) : Finset Nat :=
  ((w.edges.filter (fun e => e.source = n)).map (fun e => e.target)).toFinset

theorem mem_deps {w : WorkflowConfig} {a n : Nat} :
    a ∈ deps w n ↔ ∃ e ∈ w.edges, e.target = n ∧ e.source = a := by
  simp only [deps, List.mem_toFinset, List.mem_map, List.mem_filter,
    decide_eq_true_eq]
  constructor
  · rintro ⟨e, ⟨he, ht⟩, hs⟩; exact ⟨e, he, ht, hs⟩
  · rintro ⟨e, he, ht, hs⟩; exact ⟨e, ⟨he, ht⟩, hs⟩

theorem mem_dependents {w : WorkflowConfig} {m n : Nat} :
    m ∈ dependents w n ↔ n ∈ deps w m := by
  simp only [dependents, deps, List.mem_toFinset, List.mem_map, List.mem_filter,
    decide_eq_true_eq]
  constructor
  · rintro ⟨e, ⟨he, hs⟩, ht⟩; exact ⟨e, ⟨he, ht⟩, hs⟩
  · rintro ⟨e, ⟨he, ht⟩, hs⟩; exact ⟨e, ⟨he, hs⟩, ht⟩

/-- The direct-dependency relation: `a` is an immediate upstream node of
`b` (there is an edge `a → b`). -/
def depRel (w : WorkflowConfig) (a b : Nat) : Prop :=
  a ∈ deps w b

/-- `a` is an ancestor of `b`: there is a non-empty directed edge path
from `a` to `b`. -/
def isAncestor (w : WorkflowConfig) (a b : Nat) : Prop :=
  Relation.TransGen (depRel w) a b

/-- `WorkflowNodeStatus` (`src/pre-wf/app/workflow_schema.py:24`).  The enum
has no `cancelled` member. -/
inductive WorkflowNodeStatus where
  | pending | ready | running | completed | failed | skipped
deriving DecidableEq, Repr

/-- Lifecycle events the engine emits on its event bus, with the node index
where the emission carries `node_id=str(node_index)`. -/
inductive EventK where
  | workflow_started
  | workflow_completed
  | workflow_failed
  | workflow_cancelled
  | node_started (n : Nat)
  | node_completed (n : Nat)
  | node_failed (n : Nat)
  | user_input_requested (n : Nat)
  | user_input_received (n : Nat)
deriving DecidableEq, Repr

/-- The mutable execution-context state of `WorkflowExecutionContext`
(`workflow_engine.py:48-159`) together with the append-only observables the
claims are about.  `tasks` is the multiset (as a list) of spawned `asyncio`
tasks whose results have not yet been processed by the scheduling loop —
`asyncio.create_task` in line 619 adds one, the `for task in done` body of
lines 627-640 consumes one.  `outputWrites` logs each assignment
`self.node_outputs[node_index] = output` of `mark_node_completed`
(line 125). -/
structure EngState where
  pending : Finset Nat
  ready : Finset Nat
  running : Finset Nat
  completed : Finset Nat
  failed : Finset Nat
  tasks : List Nat
  vars : VarMap
  node_outputs : List (Nat × Val)
  outputWrites : List Nat
  pending_user_inputs : List (Nat × Option Val)
  loop_iterations : List (Nat × Nat)
  events : List EventK

/-- The state `_build_dependency_graph` (`workflow_engine.py:88-114`) leaves
the fresh context in, after `start_workflow` emitted `WORKFLOW_STARTED`:
nodes without dependencies are `ready`, all others `pending`. -/
def initState (w : WorkflowConfig) : EngState :=
  { pending := (Finset.range w.nodes.length).filter (fun i => ¬deps w i = ∅)
    ready := (Finset.range w.nodes.length).filter (fun i => deps w i = ∅)
    running := ∅
    completed := ∅
    failed := ∅
    tasks := []
    vars := w.vars
    node_outputs := []
    outputWrites := []
    pending_user_inputs := []
    loop_iterations := []
    events := [.workflow_started] }

/-- `merge_waiting[i]` (`workflow_engine.py:106-114`): the node's `wait_for`
list if present and non-empty, otherwise the sources of the incoming edges.
The source stores a Python `set`, whose iteration order is unspecified; the
model keeps first-occurrence order. -/
def mergeWaiting (w : WorkflowConfig) (i : Nat) : List Nat :=
  match w.nodes.get? i with
  | some (.merge _ (some wf)) =>
      if wf = [] then ((w.edges.filter (fun e => e.target = i)).map (fun e => e.source)).dedup
      else wf.dedup
  | _ => ((w.edges.filter (fun e => e.target = i)).map (fun e => e.source)).dedup

/-- `mark_node_running` (`workflow_engine.py:116-119`) plus the task spawn of
the drain loop (lines 616-620) and the entry of `_execute_node`
(lines 672-686): the node leaves `ready`, joins `running`, one task is
spawned, `NODE_STARTED` is emitted; a `user_input` node additionally creates
its pending future and emits `USER_INPUT_REQUESTED`
(`UserInputNodeExecutor.execute`, lines 489-506). -/
def runNode (w : WorkflowConfig) (s : EngState) (n : Nat) : EngState :=
  let s1 : EngState :=
    { s with ready := s.ready.erase n
             running := insert n s.running
             tasks := s.tasks ++ [n]
             events := s.events ++ [.node_started n] }
  match w.nodes.get? n with
  | some (.user_input _ _) =>
      { s1 with pending_user_inputs := alSet s1.pending_user_inputs n none
                events := s1.events ++ [.user_input_requested n] }
  | _ => s1

/-- The dependents of `n` that `_is_node_ready` (`workflow_engine.py:138-145`)
accepts once `n` is completed: not in `completed` or `failed` and with all
dependencies completed.  The check does not test membership in `pending` or
`running`. -/
def promoSet (w : WorkflowConfig) (s : EngState) (n : Nat) : Finset Nat :=
  (dependents w n).filter
    (fun m => m ∉ insert n s.completed ∧ m ∉ s.failed ∧ deps w m ⊆ insert n s.completed)

/-- `mark_node_completed` (`workflow_engine.py:121-131`) plus the emission of
`NODE_COMPLETED` in `_execute_node` and the consumption of the finished
task: remove from `running`, add to `completed`, write the node's output,
then promote every accepted dependent from `pending` to `ready`. -/
def markCompleted (w : WorkflowConfig) (s : EngState) (n : Nat) (out : Val) : EngState :=
  { s with running := s.running.erase n
           completed := insert n s.completed
           node_outputs := alSet s.node_outputs n out
           outputWrites := s.outputWrites ++ [n]
           pending := s.pending \ promoSet w s n
           ready := s.ready ∪ promoSet w s n
           tasks := s.tasks.erase n
           events := s.events ++ [.node_completed n] }

/-- `mark_node_failed` (`workflow_engine.py:133-136`) plus the emission of
`NODE_FAILED` in `_execute_node` and the consumption of the finished task:
remove from `running`, add to `failed`.  No other frontier set is touched
and no output is written. -/
def markFailed (s : EngState) (n : Nat) : EngState :=
  { s with running := s.running.erase n
           failed := insert n s.failed
           tasks := s.tasks.erase n
           events := s.events ++ [.node_failed n] }

/-- A Python `str(value)` rendering, used by the prompt executor's template
substitution. -/
def valStr : Val → String
  | .vnone => "None"
  | .vstr s => s
  | .vint n => toString n
  | .vbool b => if b then "True" else "False"
  | .vlist _ => "[...]"
  | .vdict _ => "{...}"

/-- The dict navigation loop of `NodeExecutor._resolve_path`
(`workflow_engine.py:209-213`): follow parts with `value.get(part)` while the
value is a dict, stop at the first non-dict. -/
def navigate : Val → List String → Val
  | v, [] => v
  | .vdict m, p :: ps => navigate ((vmGet m p).getD .vnone) ps
  | v, _ :: _ => v

/-- `NodeExecutor._resolve_path` (`workflow_engine.py:188-215`): a source
path may name a node output (`node[i]…` or `$i…`), the variables map
(`variables…`), or a key path into the given data dict.  A malformed node
index raises `ValueError` in `int(...)`. -/
def resolvePath (ctxOutputs : List (Nat × Val)) (vars data : VarMap)
    (path : String) : Except String Val :=
  match path.splitOn "." with
  | [] => .ok (navigate (.vdict data) [])
  | p0 :: rest =>
    if p0.startsWith "node[" && p0.endsWith "]" then
      match ((p0.drop 5).dropRight 1).toNat? with
      | none => .error "ValueError: invalid node index"
      | some i => .ok (navigate ((alGet ctxOutputs i).getD (.vdict [])) rest)
    else if p0.startsWith "$" then
      match (p0.drop 1).toNat? with
      | none => .error "ValueError: invalid node index"
      | some i => .ok (navigate ((alGet ctxOutputs i).getD (.vdict [])) rest)
    else if p0 = "variables" then
      .ok (navigate (.vdict vars) rest)
    else
      .ok (navigate (.vdict data) (p0 :: rest))

/-- `NodeExecutor.apply_mapping` (`workflow_engine.py:174-186`): a falsy
mapping (absent or empty) returns the data unchanged; otherwise a fresh dict
is built with one resolved path per target key. -/
def applyMapping (ctxOutputs : List (Nat × Val)) (vars : VarMap)
    (mapping : Option Mapping) (data : VarMap) : Except String VarMap :=
  match mapping with
  | none => .ok data
  | some m =>
    if m.isEmpty then .ok data
    else
      m.foldlM (fun acc p => do
        let v ← resolvePath ctxOutputs vars data p.2
        pure (vmSet acc p.1 v)) ([] : VarMap)

/-- Interpretation of the opaque user code the transform executor runs:
`exec(node.transform_script, {}, local_vars)` followed by
`local_vars.get("output", input_data)` for `transform_type == "python"`, and
`Template(node.transform_script).render(**input_data)` for
`transform_type == "jinja2"`.  An `.error` result is the exception path of
the executor's `try` block. -/
structure Oracle where
  py : String → VarMap → Except String Val
  jinja : String → VarMap → Except String String

/-- `PromptConfig` of the application config: the prompt executor reads only
`instructions` (`workflow_engine.py:405`). -/
structure PromptConfig where
  instructions : Option (List String)

/-- `AppConfig`, restricted to the field the engine's executors read. -/
structure AppConfig where
  prompts : List PromptConfig

/-- The template substitution of `PromptNodeExecutor.execute`
(`workflow_engine.py:408-410`): replace `\x7b\x7bkey\x7d\x7d` by
`str(value)` for every input item, in order. -/
def renderPrompt (instructions : List String) (input : VarMap) : String :=
  input.foldl
    (fun acc p => acc.replace ("\x7b\x7b" ++ p.1 ++ "\x7d\x7d") (valStr p.2))
    (String.intercalate "\n" instructions)

/-- The `execute` methods of the simple-kind executors
(`workflow_engine.py:218-238, 274-300, 365-487`), as a function of the
oracle, the app config, the node config, the node-output store and the
variables map.  The result is the node's output value together with the
updated `context.variables`; `.error` covers both a
`NodeExecutionResult(success=False)` and an exception propagating to
`_execute_node`'s handler — the scheduler treats both as node failure. -/
def execNodeCfg (σ : Oracle) (cfg : AppConfig) (w : WorkflowConfig) (n : Nat)
    (node : NodeCfg) (ctxOutputs : List (Nat × Val)) (vars : VarMap) :
    Except String (Val × VarMap) :=
  match node with
  | .start initial_data =>
      let vars' := match initial_data with
        | some d => if d.isEmpty then vars else vmUpdate vars d
        | none => vars
      .ok (.vdict [("status", .vstr "started"), ("variables", .vdict vars')], vars')
  | .end_ output_mapping => do
      let out ← applyMapping ctxOutputs vars output_mapping vars
      .ok (.vdict [("status", .vstr "completed"), ("output", .vdict out)], vars)
  | .merge strategy _ =>
      let incoming := mergeWaiting w n
      let outs := incoming.filterMap (fun d => alGet ctxOutputs d)
      let merged :=
        if strategy = "first" then (outs.head?).getD .vnone
        else if strategy = "last" then (outs.getLast?).getD .vnone
        else .vlist outs
      .ok (.vdict [("merged", merged), ("count", .vint outs.length)], vars)
  | .agent agentIdx im om => do
      let input ← applyMapping ctxOutputs vars im vars
      let out := Val.vdict
        [("agent_index", .vint agentIdx),
         ("input", .vdict input),
         ("response", .vstr ("Agent " ++ toString agentIdx ++ " execution placeholder"))]
      match om with
      | some m =>
        if m.isEmpty then .ok (out, vmSet vars "agent_output" out)
        else do
          let mapped ← applyMapping ctxOutputs vars (some m) [("agent_index", .vint agentIdx), ("input", .vdict input), ("response", .vstr ("Agent " ++ toString agentIdx ++ " execution placeholder"))]
          .ok (out, vmUpdate vars mapped)
      | none => .ok (out, vmSet vars "agent_output" out)
  | .prompt promptIdx im om => do
      if h : promptIdx < cfg.prompts.length then
        let pc := cfg.prompts.get ⟨promptIdx, h⟩
        let input ← applyMapping ctxOutputs vars im vars
        let rendered := renderPrompt (pc.instructions.getD []) input
        let out := Val.vdict
          [("prompt", .vstr rendered),
           ("response", .vstr "Prompt execution placeholder")]
        match om with
        | some m =>
          if m.isEmpty then .ok (out, vmSet vars "prompt_output" out)
          else do
            let mapped ← applyMapping ctxOutputs vars (some m)
              [("prompt", .vstr rendered), ("response", .vstr "Prompt execution placeholder")]
            .ok (out, vmUpdate vars mapped)
        | none => .ok (out, vmSet vars "prompt_output" out)
      else
        .error ("Invalid prompt index: " ++ toString promptIdx)
  | .transform ttype script im om => do
      let input ← applyMapping ctxOutputs vars im vars
      let output ←
        if ttype = "python" then σ.py script input
        else if ttype = "jinja2" then (σ.jinja script input).map .vstr
        else .ok (.vdict input)
      match om with
      | some m =>
        if m.isEmpty then .ok (output, vmSet vars "transform_output" output)
        else do
          let mapped ← applyMapping ctxOutputs vars (some m) [("result", output)]
          .ok (output, vmUpdate vars mapped)
      | none => .ok (output, vmSet vars "transform_output" output)
  | .tool toolIdx im om => do
      let input ← applyMapping ctxOutputs vars im vars
      let out := Val.vdict
        [("tool_index", .vint toolIdx),
         ("input", .vdict input),
         ("result", .vstr ("Tool " ++ toString toolIdx ++ " execution placeholder"))]
      match om with
      | some m =>
        if m.isEmpty then .ok (out, vmSet vars "tool_output" out)
        else do
          let mapped ← applyMapping ctxOutputs vars (some m) [("tool_index", .vint toolIdx), ("input", .vdict input), ("result", .vstr ("Tool " ++ toString toolIdx ++ " execution placeholder"))]
          .ok (out, vmUpdate vars mapped)
      | none => .ok (out, vmSet vars "tool_output" out)
  | _ => .error "not a simple-kind node"

/-- Dispatch of `execNodeCfg` through the workflow's node list. -/
def execSimple (σ : Oracle) (cfg : AppConfig) (w : WorkflowConfig) (n : Nat)
    (s : EngState) : Except String (Val × VarMap) :=
  match w.nodes.get? n with
  | some node => execNodeCfg σ cfg w n node s.node_outputs s.vars
  | none => .error "node index out of range"

/-- `DecisionNodeExecutor.execute` (`workflow_engine.py:241-271`): read the
condition value from `variables`, match it against the branch names, discard
every non-matching branch target from `pending`, and promote the matching
target from `pending` to `ready` if it is pending.  Returns the updated
frontier state and the node's output. -/
def decisionStep (s : EngState) (cf : String) (branches : List (String × Nat)) :
    EngState × Val :=
  let value := (vmGet s.vars cf).getD .vnone
  let matched : Option Nat := (branches.find? (fun b => value == Val.vstr b.1)).map (·.2)
  let out := Val.vdict
    [("branch", match matched with | some t => .vint t | none => .vnone),
     ("value", value),
     ("branches", .vdict (branches.map (fun b => (b.1, Val.vint b.2))))]
  match matched with
  | some t =>
    let discarded := ((branches.map (·.2)).filter (fun x => x ≠ t)).toFinset
    let s1 := { s with pending := s.pending \ discarded }
    let s2 :=
      if t ∈ s1.pending then
        { s1 with pending := s1.pending.erase t, ready := insert t s1.ready }
      else s1
    (s2, out)
  | none => (s, out)

/-- `ParallelNodeExecutor.execute` (`workflow_engine.py:303-325`): promote
every listed branch target that is pending from `pending` to `ready`. -/
def parallelStep (s : EngState) (branches : List Nat) : EngState × Val :=
  let s' := branches.foldl
    (fun acc b =>
      if b ∈ acc.pending then
        { acc with pending := acc.pending.erase b, ready := insert b acc.ready }
      else acc) s
  (s', .vdict [("status", .vstr "parallel_started"),
               ("branches", .vlist (branches.map Val.vint))])

/-- `LoopNodeExecutor.execute` (`workflow_engine.py:328-362`): bump the
iteration counter, evaluate the continuation conditions, and promote the
body from `pending` to `ready` when continuing. -/
def loopStep (s : EngState) (n : Nat) (max_iterations : Nat)
    (break_on : Option String) (condition_field : Option String)
    (condition_value : Val) (body : Option Nat) : EngState × Val :=
  let cur := (alGet s.loop_iterations n).getD 0
  let s1 := { s with loop_iterations := alSet s.loop_iterations n (cur + 1) }
  let cont0 := cur < max_iterations
  let cont1 := cont0 && (match break_on with
    | some b => if b ≠ "" then !pyTruthy ((vmGet s.vars b).getD .vnone) else true
    | none => true)
  let cont2 := cont1 && (match condition_field with
    | some cf => if cf ≠ "" then !((vmGet s.vars cf).getD .vnone == condition_value) else true
    | none => true)
  let s2 :=
    match body with
    | some b =>
      if cont2 && decide (b ∈ s1.pending) then
        { s1 with pending := s1.pending.erase b, ready := insert b s1.ready }
      else s1
    | none => s1
  (s2, .vdict [("iteration", .vint cur),
               ("should_continue", .vbool cont2),
               ("max_iterations", .vint max_iterations)])

/-- `WorkflowExecutionContext.has_work` (`workflow_engine.py:147-149`). -/
def hasWork (s : EngState) : Bool :=
  s.ready.card > 0 || s.running.card > 0

/-- `WorkflowExecutionContext.is_complete` (`workflow_engine.py:151-155`). -/
def isComplete (w : WorkflowConfig) (s : EngState) : Bool :=
  decide (s.completed.card + s.failed.card ≥ w.nodes.length) || !hasWork s

/-- Labels identifying which scheduler action a transition performs. -/
inductive StepLab where
  | drain (n : Nat)
  | done (n : Nat)
  | fail (n : Nat)
  | input (n : Nat)
deriving DecidableEq, Repr

/-- Whether node `n` of the workflow is a `user_input` node. -/
def isUserInput (w : WorkflowConfig) (n : Nat) : Prop :=
  ∃ pt tmo, w.nodes.get? n = some (.user_input pt tmo)

/-- Whether node `n` of the workflow is of a simple kind. -/
def isSimpleAt (w : WorkflowConfig) (n : Nat) : Prop :=
  ∃ node, w.nodes.get? n = some node ∧ node.isSimple

/-- One atomic action of the scheduling loop `_execute_workflow`
(`workflow_engine.py:596-649`) on the execution context:

* `drain`: lines 616-620 — a ready node is marked running and its task
  spawned.  The loop only reaches the drain under the iteration guard
  `context.has_work() and not context.is_complete()` of line 601; `has_work`
  follows from `n ∈ ready`, and the `is_complete` part is the explicit `hc`
  hypothesis.  The loop drains all of `ready` under one guard check, which
  is the same as a sequence of these steps with no processing in between:
  completed and failed do not change while draining, and `has_work` stays
  true once a node is running, so the guard keeps holding at each single
  drain of the batch;
* `doneSimple`/`failSimple`: lines 627-640 — the result of one finished
  task of a simple-kind node is processed (success or failure), with the
  executor's body folded in;
* `doneDecision`/`doneParallel`/`doneLoop`: the same for the three executors
  that mutate the frontier during `execute` (they always succeed);
* `doneUser`/`failUserTimeout`: completion of a `user_input` node whose
  future was resolved, or its `asyncio.TimeoutError` path
  (`workflow_engine.py:508-515`);
* `provideInput`: the context-level effect of
  `WorkflowEngine.provide_user_input` (`workflow_engine.py:743-762`)
  resolving a pending future. -/
inductive Step (σ : Oracle) (cfg : AppConfig) (w : WorkflowConfig) :
    EngState → StepLab → EngState → Prop
  | drain (s : EngState) (n : Nat) (h : n ∈ s.ready)
      (hc : isComplete w s = false) :
      Step σ cfg w s (.drain n) (runNode w s n)
  | doneSimple (s : EngState) (n : Nat) (out : Val) (vars' : VarMap)
      (h : n ∈ s.tasks) (hk : isSimpleAt w n)
      (hex : execSimple σ cfg w n s = .ok (out, vars')) :
      Step σ cfg w s (.done n) (markCompleted w { s with vars := vars' } n out)
  | failSimple (s : EngState) (n : Nat) (err : String)
      (h : n ∈ s.tasks) (hk : isSimpleAt w n)
      (hex : execSimple σ cfg w n s = .error err) :
      Step σ cfg w s (.fail n) (markFailed s n)
  | doneUser (s : EngState) (n : Nat) (v : Val)
      (h : n ∈ s.tasks) (hk : isUserInput w n)
      (hv : alGet s.pending_user_inputs n = some (some v)) :
      Step σ cfg w s (.done n) (markCompleted w s n (.vdict [("user_input", v)]))
  | failUserTimeout (s : EngState) (n : Nat)
      (h : n ∈ s.tasks) (hk : isUserInput w n) :
      Step σ cfg w s (.fail n) (markFailed s n)
  | provideInput (s : EngState) (n : Nat) (v : Val)
      (hv : alGet s.pending_user_inputs n = some none) :
      Step σ cfg w s (.input n)
        { s with pending_user_inputs := alSet s.pending_user_inputs n (some v)
                 events := s.events ++ [.user_input_received n] }
  | doneDecision (s : EngState) (n : Nat) (cf : String)
      (branches : List (String × Nat))
      (h : n ∈ s.tasks) (hn : w.nodes.get? n = some (.decision cf branches)) :
      Step σ cfg w s (.done n)
        (markCompleted w (decisionStep s cf branches).1 n (decisionStep s cf branches).2)
  | doneParallel (s : EngState) (n : Nat) (branches : List Nat)
      (h : n ∈ s.tasks) (hn : w.nodes.get? n = some (.parallel branches)) :
      Step σ cfg w s (.done n)
        (markCompleted w (parallelStep s branches).1 n (parallelStep s branches).2)
  | doneLoop (s : EngState) (n : Nat) (mi : Nat) (bo : Option String)
      (cf : Option String) (cv : Val) (body : Option Nat)
      (h : n ∈ s.tasks) (hn : w.nodes.get? n = some (.loop mi bo cf cv body)) :
      Step σ cfg w s (.done n)
        (markCompleted w (loopStep s n mi bo cf cv body).1 n (loopStep s n mi bo cf cv body).2)

/-- Reachability of a context state from the fresh context, by any
interleaving of scheduler actions. -/
def Reachable (σ : Oracle) (cfg : AppConfig) (w : WorkflowConfig)
    (s : EngState) : Prop :=
  Relation.ReflTransGen (fun a b => ∃ l, Step σ cfg w a l b) (initState w) s

/-- The final-status computation after the scheduling loop exits
(`workflow_engine.py:644-649`): `FAILED` with the failed-node count in the
error message when `failed` is non-empty, `COMPLETED` otherwise.  No other
status or error text is produced on the loop's normal exit. -/
def finalState (s : EngState) : WorkflowNodeStatus × Option String :=
  if s.failed ≠ ∅ then
    (.failed, some ("Workflow completed with " ++ toString s.failed.card ++ " failed nodes"))
  else
    (.completed, none)

/-- The node index space of a workflow. -/
def nodeUniv (w : WorkflowConfig) : Finset Nat :=
  Finset.range w.nodes.length

/-- All nodes of a workflow are of simple kinds (no `decision`, `parallel`
or `loop`). -/
def allSimple (w : WorkflowConfig) : Prop :=
  ∀ node ∈ w.nodes, node.isSimple

theorem mem_promoSet {w : WorkflowConfig} {s : EngState} {n m : Nat} :
    m ∈ promoSet w s n ↔
      m ∈ dependents w n ∧ m ∉ insert n s.completed ∧ m ∉ s.failed ∧
        deps w m ⊆ insert n s.completed := by
  simp [promoSet]

theorem dependents_lt {w : WorkflowConfig} {n m : Nat}
    (hval : w.edgesValid) (h : m ∈ dependents w n) : m < w.nodes.length := by
  rcases mem_deps.mp (mem_dependents.mp h) with ⟨e, he, ht, hs⟩
  have := (hval e he).2
  omega

/-- The execution-context invariant maintained by the scheduler on workflows
whose nodes are all of simple kinds: the five frontier sets cover the node
index space and are pairwise disjoint, ready and running nodes have all
dependencies completed, pending nodes have an incomplete dependency, the
unprocessed tasks are exactly the running nodes (one task each), and the
output-store writes are one per node and only for completed nodes. -/
structure Inv (w : WorkflowConfig) (s : EngState) : Prop where
  cover : ∀ x, x ∈ nodeUniv w ↔
    (x ∈ s.pending ∨ x ∈ s.ready ∨ x ∈ s.running ∨ x ∈ s.completed ∨ x ∈ s.failed)
  inRange : ∀ x,
    (x ∈ s.pending ∨ x ∈ s.ready ∨ x ∈ s.running ∨ x ∈ s.completed ∨ x ∈ s.failed) →
    x ∈ nodeUniv w
  dPR : ∀ x, x ∈ s.pending → x ∉ s.ready
  dPN : ∀ x, x ∈ s.pending → x ∉ s.running
  dPC : ∀ x, x ∈ s.pending → x ∉ s.completed
  dPF : ∀ x, x ∈ s.pending → x ∉ s.failed
  dRN : ∀ x, x ∈ s.ready → x ∉ s.running
  dRC : ∀ x, x ∈ s.ready → x ∉ s.completed
  dRF : ∀ x, x ∈ s.ready → x ∉ s.failed
  dNC : ∀ x, x ∈ s.running → x ∉ s.completed
  dNF : ∀ x, x ∈ s.running → x ∉ s.failed
  dCF : ∀ x, x ∈ s.completed → x ∉ s.failed
  readyDeps : ∀ m, (m ∈ s.ready ∨ m ∈ s.running) → deps w m ⊆ s.completed
  pendingBlocked : ∀ m ∈ s.pending, ¬deps w m ⊆ s.completed
  tasksIff : ∀ x, x ∈ s.tasks ↔ x ∈ s.running
  tasksNodup : s.tasks.Nodup
  writesNodup : s.outputWrites.Nodup
  writesCompleted : ∀ x ∈ s.outputWrites, x ∈ s.completed
  outputsDom : ∀ x, (alGet s.node_outputs x).isSome ↔ x ∈ s.outputWrites

theorem inv_init (w : WorkflowConfig) : Inv w (initState w) := by
  refine ⟨?_, ?_, ?_, ?_, ?_, ?_, ?_, ?_, ?_, ?_, ?_, ?_, ?_, ?_, ?_, ?_, ?_, ?_, ?_⟩ <;>
    simp [initState, nodeUniv, alGet] <;> tauto

/-- In a state satisfying the invariant, the promotion set of a running
node consists of pending nodes only. -/
theorem promo_subset_pending {w : WorkflowConfig} {s : EngState} {n : Nat}
    (hval : w.edgesValid) (hinv : Inv w s) (hrun : n ∈ s.running) :
    ∀ m ∈ promoSet w s n, m ∈ s.pending := by
  intro m hm
  rcases mem_promoSet.mp hm with ⟨hdep, hnc, hnf, hsub⟩
  have hndep : n ∈ deps w m := mem_dependents.mp hdep
  have hmC : m ∉ s.completed := fun h => hnc (Finset.mem_insert_of_mem h)
  have hmF : m ∉ s.failed := hnf
  have hmRR : ¬(m ∈ s.ready ∨ m ∈ s.running) := by
    intro h
    have := hinv.readyDeps m h hndep
    exact hinv.dNC n hrun this
  have hmU : m ∈ nodeUniv w := by
    simp [nodeUniv]
    exact dependents_lt hval hdep
  rcases (hinv.cover m).mp hmU with h | h | h | h | h
  · exact h
  · exact absurd (Or.inl h) hmRR
  · exact absurd (Or.inr h) hmRR
  · exact absurd h hmC
  · exact absurd h hmF

/-- Invariant preservation by `markCompleted` for a running node. -/
theorem inv_markCompleted {w : WorkflowConfig} {s : EngState} {n : Nat}
    (out : Val) (hval : w.edgesValid) (hinv : Inv w s) (hrun : n ∈ s.running) :
    Inv w (markCompleted w s n out) := by
  have hpromo := promo_subset_pending hval hinv hrun
  have hnP : n ∉ s.pending := fun h => hinv.dPN n h hrun
  have hnR : n ∉ s.ready := fun h => hinv.dRN n h hrun
  have hnC : n ∉ s.completed := hinv.dNC n hrun
  have hnF : n ∉ s.failed := hinv.dNF n hrun
  have hpC : ∀ m ∈ promoSet w s n, m ∉ insert n s.completed := by
    intro m hm; exact (mem_promoSet.mp hm).2.1
  have hpF : ∀ m ∈ promoSet w s n, m ∉ s.failed := by
    intro m hm; exact (mem_promoSet.mp hm).2.2.1
  have hpSub : ∀ m ∈ promoSet w s n, deps w m ⊆ insert n s.completed := by
    intro m hm; exact (mem_promoSet.mp hm).2.2.2
  constructor
  case cover =>
    intro x
    rw [hinv.cover x]
    simp only [markCompleted, Finset.mem_sdiff, Finset.mem_union, Finset.mem_erase,
      Finset.mem_insert]
    constructor
    · rintro (h | h | h | h | h)
      · by_cases hx : x ∈ promoSet w s n
        · exact Or.inr (Or.inl (Or.inr hx))
        · exact Or.inl ⟨h, hx⟩
      · exact Or.inr (Or.inl (Or.inl h))
      · by_cases hx : x = n
        · exact Or.inr (Or.inr (Or.inr (Or.inl (Or.inl hx))))
        · exact Or.inr (Or.inr (Or.inl ⟨hx, h⟩))
      · exact Or.inr (Or.inr (Or.inr (Or.inl (Or.inr h))))
      · exact Or.inr (Or.inr (Or.inr (Or.inr h)))
    · rintro (⟨h, _⟩ | (h | h) | ⟨_, h⟩ | (h | h) | h)
      · exact Or.inl h
      · exact Or.inr (Or.inl h)
      · exact Or.inl (hpromo x h)
      · exact Or.inr (Or.inr (Or.inl h))
      · subst h; exact Or.inr (Or.inr (Or.inl hrun))
      · exact Or.inr (Or.inr (Or.inr (Or.inl h)))
      · exact Or.inr (Or.inr (Or.inr (Or.inr h)))
  case inRange =>
    intro x hx
    apply hinv.inRange x
    simp only [markCompleted, Finset.mem_sdiff, Finset.mem_union, Finset.mem_erase,
      Finset.mem_insert] at hx
    rcases hx with ⟨h, _⟩ | (h | h) | ⟨_, h⟩ | (h | h) | h
    · exact Or.inl h
    · exact Or.inr (Or.inl h)
    · exact Or.inl (hpromo x h)
    · exact Or.inr (Or.inr (Or.inl h))
    · subst h; exact Or.inr (Or.inr (Or.inl hrun))
    · exact Or.inr (Or.inr (Or.inr (Or.inl h)))
    · exact Or.inr (Or.inr (Or.inr (Or.inr h)))
  case dPR =>
    intro x hx
    simp only [markCompleted, Finset.mem_sdiff, Finset.mem_union] at hx ⊢
    push_neg
    exact ⟨hinv.dPR x hx.1, hx.2⟩
  case dPN =>
    intro x hx
    simp only [markCompleted, Finset.mem_sdiff, Finset.mem_erase] at hx ⊢
    rintro ⟨-, h⟩
    exact hinv.dPN x hx.1 h
  case dPC =>
    intro x hx
    simp only [markCompleted, Finset.mem_sdiff, Finset.mem_insert] at hx ⊢
    push_neg
    refine ⟨fun h => ?_, hinv.dPC x hx.1⟩
    subst h; exact hnP hx.1
  case dPF =>
    intro x hx
    simp only [markCompleted, Finset.mem_sdiff] at hx ⊢
    exact hinv.dPF x hx.1
  case dRN =>
    intro x hx
    simp only [markCompleted, Finset.mem_union, Finset.mem_erase] at hx ⊢
    rintro ⟨-, h⟩
    rcases hx with hx | hx
    · exact hinv.dRN x hx h
    · exact hinv.dPN x (hpromo x hx) h
  case dRC =>
    intro x hx
    simp only [markCompleted, Finset.mem_union, Finset.mem_insert] at hx ⊢
    push_neg
    rcases hx with hx | hx
    · refine ⟨fun h => ?_, hinv.dRC x hx⟩
      subst h; exact hnR hx
    · refine ⟨fun h => ?_, fun h => hpC x hx (Finset.mem_insert_of_mem h)⟩
      exact hpC x hx (h ▸ Finset.mem_insert_self n s.completed)
  case dRF =>
    intro x hx
    simp only [markCompleted, Finset.mem_union] at hx ⊢
    rcases hx with hx | hx
    · exact hinv.dRF x hx
    · exact hpF x hx
  case dNC =>
    intro x hx
    simp only [markCompleted, Finset.mem_erase, Finset.mem_insert] at hx ⊢
    push_neg
    exact ⟨hx.1, hinv.dNC x hx.2⟩
  case dNF =>
    intro x hx
    simp only [markCompleted, Finset.mem_erase] at hx ⊢
    exact hinv.dNF x hx.2
  case dCF =>
    intro x hx
    simp only [markCompleted, Finset.mem_insert] at hx ⊢
    rcases hx with hx | hx
    · subst hx; exact hnF
    · exact hinv.dCF x hx
  case readyDeps =>
    intro m hm
    simp only [markCompleted, Finset.mem_union, Finset.mem_erase] at hm
    rcases hm with (hm | hm) | hm
    · exact fun x hx => Finset.mem_insert_of_mem (hinv.readyDeps m (Or.inl hm) hx)
    · exact hpSub m hm
    · exact fun x hx => Finset.mem_insert_of_mem (hinv.readyDeps m (Or.inr hm.2) hx)
  case pendingBlocked =>
    intro m hm
    simp only [markCompleted, Finset.mem_sdiff] at hm
    obtain ⟨hmP, hmNp⟩ := hm
    simp only [markCompleted]
    intro hsub
    by_cases hdep : n ∈ deps w m
    · apply hmNp
      rw [mem_promoSet]
      refine ⟨mem_dependents.mpr hdep, ?_, hinv.dPF m hmP, hsub⟩
      simp only [Finset.mem_insert]
      push_neg
      refine ⟨fun h => ?_, hinv.dPC m hmP⟩
      subst h; exact hnP hmP
    · apply hinv.pendingBlocked m hmP
      intro x hx
      rcases Finset.mem_insert.mp (hsub hx) with h | h
      · subst h; exact absurd hx hdep
      · exact h
  case tasksIff =>
    intro x
    simp only [markCompleted, Finset.mem_erase]
    rw [List.Nodup.mem_erase_iff hinv.tasksNodup, hinv.tasksIff x]
  case tasksNodup =>
    simp only [markCompleted]
    exact hinv.tasksNodup.erase n
  case writesNodup =>
    simp only [markCompleted]
    rw [List.nodup_append]
    refine ⟨hinv.writesNodup, List.nodup_singleton n, ?_⟩
    intro x hx
    simp only [List.mem_singleton]
    intro h
    subst h
    exact hnC (hinv.writesCompleted x hx)
  case writesCompleted =>
    intro x hx
    simp only [markCompleted, List.mem_append, List.mem_singleton] at hx ⊢
    rcases hx with hx | hx
    · exact Finset.mem_insert_of_mem (hinv.writesCompleted x hx)
    · rw [hx]; exact Finset.mem_insert_self n s.completed
  case outputsDom =>
    intro x
    simp only [markCompleted, List.mem_append, List.mem_singleton]
    by_cases hx : x = n
    · rw [hx]; simp [alGet_alSet_self]
    · rw [alGet_alSet_ne _ hx, hinv.outputsDom x]
      simp [hx]

theorem runNode_node_outputs (w : WorkflowConfig) (s : EngState) (n : Nat) :
    (runNode w s n).node_outputs = s.node_outputs := by
  unfold runNode
  rcases w.nodes.get? n with _ | node
  · rfl
  · cases node <;> rfl

theorem runNode_pending (w : WorkflowConfig) (s : EngState) (n : Nat) :
    (runNode w s n).pending = s.pending := by
  unfold runNode
  rcases w.nodes.get? n with _ | node
  · rfl
  · cases node <;> rfl

theorem runNode_ready (w : WorkflowConfig) (s : EngState) (n : Nat) :
    (runNode w s n).ready = s.ready.erase n := by
  unfold runNode
  rcases w.nodes.get? n with _ | node
  · rfl
  · cases node <;> rfl

theorem runNode_running (w : WorkflowConfig) (s : EngState) (n : Nat) :
    (runNode w s n).running = insert n s.running := by
  unfold runNode
  rcases w.nodes.get? n with _ | node
  · rfl
  · cases node <;> rfl

theorem runNode_completed (w : WorkflowConfig) (s : EngState) (n : Nat) :
    (runNode w s n).completed = s.completed := by
  unfold runNode
  rcases w.nodes.get? n with _ | node
  · rfl
  · cases node <;> rfl

theorem runNode_failed (w : WorkflowConfig) (s : EngState) (n : Nat) :
    (runNode w s n).failed = s.failed := by
  unfold runNode
  rcases w.nodes.get? n with _ | node
  · rfl
  · cases node <;> rfl

theorem runNode_tasks (w : WorkflowConfig) (s : EngState) (n : Nat) :
    (runNode w s n).tasks = s.tasks ++ [n] := by
  unfold runNode
  rcases w.nodes.get? n with _ | node
  · rfl
  · cases node <;> rfl

theorem runNode_outputWrites (w : WorkflowConfig) (s : EngState) (n : Nat) :
    (runNode w s n).outputWrites = s.outputWrites := by
  unfold runNode
  rcases w.nodes.get? n with _ | node
  · rfl
  · cases node <;> rfl

/-- Invariant preservation by the drain step for a ready node. -/
theorem inv_runNode {w : WorkflowConfig} {s : EngState} {n : Nat}
    (hinv : Inv w s) (hn : n ∈ s.ready) : Inv w (runNode w s n) := by
  have hnN : n ∉ s.running := hinv.dRN n hn
  have hnP : n ∉ s.pending := fun h => hinv.dPR n h hn
  have hnC : n ∉ s.completed := hinv.dRC n hn
  have hnF : n ∉ s.failed := hinv.dRF n hn
  have hnT : n ∉ s.tasks := fun h => hnN ((hinv.tasksIff n).mp h)
  constructor <;>
    simp only [runNode_pending, runNode_ready, runNode_running, runNode_completed,
      runNode_failed, runNode_tasks, runNode_outputWrites, runNode_node_outputs]
  case cover =>
    intro x
    rw [hinv.cover x]
    by_cases hx : x = n
    · subst hx; simp [hn, Finset.mem_insert]
    · simp [Finset.mem_erase, Finset.mem_insert, hx]
  case inRange =>
    intro x hx
    apply hinv.inRange x
    by_cases hxn : x = n
    · subst hxn; exact Or.inr (Or.inl hn)
    · simp only [Finset.mem_erase, Finset.mem_insert] at hx
      tauto
  case dPR =>
    intro x hx
    simp only [Finset.mem_erase]
    rintro ⟨-, h⟩
    exact hinv.dPR x hx h
  case dPN =>
    intro x hx
    simp only [Finset.mem_insert]
    rintro (h | h)
    · subst h; exact hnP hx
    · exact hinv.dPN x hx h
  case dPC =>
    exact fun x hx => hinv.dPC x hx
  case dPF =>
    exact fun x hx => hinv.dPF x hx
  case dRN =>
    intro x hx
    simp only [Finset.mem_erase] at hx
    simp only [Finset.mem_insert]
    rintro (h | h)
    · exact hx.1 h
    · exact hinv.dRN x hx.2 h
  case dRC =>
    intro x hx
    simp only [Finset.mem_erase] at hx
    exact hinv.dRC x hx.2
  case dRF =>
    intro x hx
    simp only [Finset.mem_erase] at hx
    exact hinv.dRF x hx.2
  case dNC =>
    intro x hx
    simp only [Finset.mem_insert] at hx
    rcases hx with hx | hx
    · subst hx; exact hnC
    · exact hinv.dNC x hx
  case dNF =>
    intro x hx
    simp only [Finset.mem_insert] at hx
    rcases hx with hx | hx
    · subst hx; exact hnF
    · exact hinv.dNF x hx
  case dCF =>
    exact fun x hx => hinv.dCF x hx
  case readyDeps =>
    intro m hm
    rcases hm with hm | hm
    · exact hinv.readyDeps m (Or.inl (Finset.mem_of_mem_erase hm))
    · rcases Finset.mem_insert.mp hm with hm | hm
      · rw [hm]; exact hinv.readyDeps n (Or.inl hn)
      · exact hinv.readyDeps m (Or.inr hm)
  case pendingBlocked =>
    exact hinv.pendingBlocked
  case tasksIff =>
    intro x
    simp only [List.mem_append, List.mem_singleton, Finset.mem_insert,
      hinv.tasksIff x]
    tauto
  case tasksNodup =>
    simp [List.nodup_append, hnT, hinv.tasksNodup]
  case writesNodup =>
    exact hinv.writesNodup
  case writesCompleted =>
    exact hinv.writesCompleted
  case outputsDom =>
    exact hinv.outputsDom

/-- Invariant preservation by `markFailed` for a running node. -/
theorem inv_markFailed {w : WorkflowConfig} {s : EngState} {n : Nat}
    (hinv : Inv w s) (hrun : n ∈ s.running) : Inv w (markFailed s n) := by
  have hnP : n ∉ s.pending := fun h => hinv.dPN n h hrun
  have hnR : n ∉ s.ready := fun h => hinv.dRN n h hrun
  have hnC : n ∉ s.completed := hinv.dNC n hrun
  have hnF : n ∉ s.failed := hinv.dNF n hrun
  constructor <;> simp only [markFailed]
  case cover =>
    intro x
    rw [hinv.cover x]
    by_cases hx : x = n
    · subst hx; simp [hrun, Finset.mem_insert]
    · simp [Finset.mem_erase, Finset.mem_insert, hx]
  case inRange =>
    intro x hx
    apply hinv.inRange x
    by_cases hxn : x = n
    · subst hxn; exact Or.inr (Or.inr (Or.inl hrun))
    · simp only [Finset.mem_erase, Finset.mem_insert] at hx
      tauto
  case dPR =>
    exact fun x hx => hinv.dPR x hx
  case dPN =>
    intro x hx
    simp only [Finset.mem_erase]
    rintro ⟨-, h⟩
    exact hinv.dPN x hx h
  case dPC =>
    exact fun x hx => hinv.dPC x hx
  case dPF =>
    intro x hx
    simp only [Finset.mem_insert]
    rintro (h | h)
    · rw [h] at hx; exact hnP hx
    · exact hinv.dPF x hx h
  case dRN =>
    intro x hx
    simp only [Finset.mem_erase]
    rintro ⟨-, h⟩
    exact hinv.dRN x hx h
  case dRC =>
    exact fun x hx => hinv.dRC x hx
  case dRF =>
    intro x hx
    simp only [Finset.mem_insert]
    rintro (h | h)
    · rw [h] at hx; exact hnR hx
    · exact hinv.dRF x hx h
  case dNC =>
    intro x hx
    simp only [Finset.mem_erase] at hx
    exact hinv.dNC x hx.2
  case dNF =>
    intro x hx
    simp only [Finset.mem_erase] at hx
    simp only [Finset.mem_insert]
    rintro (h | h)
    · exact hx.1 h
    · exact hinv.dNF x hx.2 h
  case dCF =>
    intro x hx
    simp only [Finset.mem_insert]
    rintro (h | h)
    · subst h; exact hnC hx
    · exact hinv.dCF x hx h
  case readyDeps =>
    intro m hm
    rcases hm with hm | hm
    · exact hinv.readyDeps m (Or.inl hm)
    · exact hinv.readyDeps m (Or.inr (Finset.mem_of_mem_erase hm))
  case pendingBlocked =>
    exact hinv.pendingBlocked
  case tasksIff =>
    intro x
    rw [List.Nodup.mem_erase_iff hinv.tasksNodup, Finset.mem_erase,
      hinv.tasksIff x]
  case tasksNodup =>
    exact hinv.tasksNodup.erase n
  case writesNodup =>
    exact hinv.writesNodup
  case writesCompleted =>
    exact hinv.writesCompleted
  case outputsDom =>
    exact hinv.outputsDom

/-- The invariant does not depend on the `vars` field. -/
theorem inv_vars {w : WorkflowConfig} {s : EngState} (v : VarMap)
    (hinv : Inv w s) : Inv w { s with vars := v } :=
  ⟨hinv.cover, hinv.inRange, hinv.dPR, hinv.dPN, hinv.dPC, hinv.dPF, hinv.dRN,
   hinv.dRC, hinv.dRF, hinv.dNC, hinv.dNF, hinv.dCF, hinv.readyDeps,
   hinv.pendingBlocked, hinv.tasksIff, hinv.tasksNodup, hinv.writesNodup,
   hinv.writesCompleted, hinv.outputsDom⟩

/-- The invariant does not depend on the user-input futures or events. -/
theorem inv_pui {w : WorkflowConfig} {s : EngState}
    (p : List (Nat × Option Val)) (ev : List EventK) (hinv : Inv w s) :
    Inv w { s with pending_user_inputs := p, events := ev } :=
  ⟨hinv.cover, hinv.inRange, hinv.dPR, hinv.dPN, hinv.dPC, hinv.dPF, hinv.dRN,
   hinv.dRC, hinv.dRF, hinv.dNC, hinv.dNF, hinv.dCF, hinv.readyDeps,
   hinv.pendingBlocked, hinv.tasksIff, hinv.tasksNodup, hinv.writesNodup,
   hinv.writesCompleted, hinv.outputsDom⟩

/-- Invariant preservation by every scheduler step, on workflows whose nodes
are all of simple kinds. -/
theorem inv_step {σ : Oracle} {cfg : AppConfig} {w : WorkflowConfig}
    {s s' : EngState} {l : StepLab} (hval : w.edgesValid) (hsimp : allSimple w)
    (h : Step σ cfg w s l s') (hinv : Inv w s) : Inv w s' := by
  cases h with
  | drain n hn hc => exact inv_runNode hinv hn
  | doneSimple n out vars' h hk hex =>
      exact inv_markCompleted out hval (inv_vars vars' hinv) ((hinv.tasksIff n).mp h)
  | failSimple n err h hk hex =>
      exact inv_markFailed hinv ((hinv.tasksIff n).mp h)
  | doneUser n v h hk hv =>
      exact inv_markCompleted _ hval hinv ((hinv.tasksIff n).mp h)
  | failUserTimeout n h hk =>
      exact inv_markFailed hinv ((hinv.tasksIff n).mp h)
  | provideInput n v hv => exact inv_pui _ _ hinv
  | doneDecision n cf branches h hn =>
      exact absurd (hsimp _ (List.get?_mem hn)) (by simp [NodeCfg.isSimple])
  | doneParallel n branches h hn =>
      exact absurd (hsimp _ (List.get?_mem hn)) (by simp [NodeCfg.isSimple])
  | doneLoop n mi bo cf cv body h hn =>
      exact absurd (hsimp _ (List.get?_mem hn)) (by simp [NodeCfg.isSimple])

/-- Every reachable state of a simple-kind workflow satisfies the
invariant. -/
theorem inv_reachable {σ : Oracle} {cfg : AppConfig} {w : WorkflowConfig}
    {s : EngState} (hval : w.edgesValid) (hsimp : allSimple w)
    (h : Reachable σ cfg w s) : Inv w s := by
  induction h with
  | refl => exact inv_init w
  | tail _ hstep ih =>
      rcases hstep with ⟨l, hstep⟩
      exact inv_step hval hsimp hstep ih

theorem deps_lt {w : WorkflowConfig} {n a : Nat}
    (hval : w.edgesValid) (h : a ∈ deps w n) : a < w.nodes.length := by
  rcases mem_deps.mp h with ⟨e, he, _, hs⟩
  have := (hval e he).1
  omega

/-- In a drained reachable state of a simple-kind acyclic workflow, every
node that did not fail and has no failed ancestor is completed. -/
theorem drained_completed {σ : Oracle} {cfg : AppConfig} {w : WorkflowConfig}
    {s : EngState} (hval : w.edgesValid) (hsimp : allSimple w)
    (hwf : WellFounded (depRel w)) (hreach : Reachable σ cfg w s)
    (hready : s.ready = ∅) (hrun : s.running = ∅) :
    ∀ m ∈ nodeUniv w, m ∉ s.failed →
      (∀ f ∈ s.failed, ¬isAncestor w f m) → m ∈ s.completed := by
  have hinv := inv_reachable hval hsimp hreach
  intro m
  induction m using WellFounded.induction hwf with
  | _ m ih =>
    intro hm hmf hanc
    rcases (hinv.cover m).mp hm with h | h | h | h | h
    · exfalso
      rcases Finset.not_subset.mp (hinv.pendingBlocked m h) with ⟨d, hd, hdc⟩
      have hdU : d ∈ nodeUniv w := by
        simp only [nodeUniv, Finset.mem_range]
        exact deps_lt hval hd
      rcases (hinv.cover d).mp hdU with h' | h' | h' | h' | h'
      · have hdf : d ∉ s.failed := hinv.dPF d h'
        have : d ∈ s.completed := by
          apply ih d hd hdU hdf
          intro f hf hancf
          exact hanc f hf (Relation.TransGen.tail hancf hd)
        exact hdc this
      · rw [hready] at h'; exact absurd h' (Finset.not_mem_empty d)
      · rw [hrun] at h'; exact absurd h' (Finset.not_mem_empty d)
      · exact hdc h'
      · exact hanc d h' (Relation.TransGen.single hd)
    · rw [hready] at h; exact absurd h (Finset.not_mem_empty m)
    · rw [hrun] at h; exact absurd h (Finset.not_mem_empty m)
    · exact h
    · exact absurd h hmf

/-! Concrete workflows, oracles and traces used by counterexamples and
witnesses. -/

/-- An oracle under which every transform script raises. -/
def oracleFail : Oracle :=
  { py := fun _ _ => .error "boom", jinja := fun _ _ => .error "boom" }

/-- An application config with no prompts. -/
def cfg0 : AppConfig := { prompts := [] }

instance (w : WorkflowConfig) : Decidable w.edgesValid := by
  unfold WorkflowConfig.edgesValid
  infer_instance

instance (w : WorkflowConfig) : Decidable (allSimple w) := by
  unfold allSimple
  infer_instance

/-- A workflow with a single transform node whose script raises. -/
def wFail1 : WorkflowConfig :=
  { nodes := [.transform "python" "raise" none none], edges := [] }

/-- The state of `wFail1` after its node ran and failed. -/
def c4state : EngState := markFailed (runNode wFail1 (initState wFail1) 0) 0

theorem wFail1_reach : Reachable oracleFail cfg0 wFail1 c4state :=
  Relation.ReflTransGen.tail
    (Relation.ReflTransGen.tail Relation.ReflTransGen.refl
      ⟨_, Step.drain (initState wFail1) 0 (by decide) (by decide)⟩)
    ⟨_, Step.failSimple (runNode wFail1 (initState wFail1) 0) 0 "boom" (by decide)
      ⟨.transform "python" "raise" none none, rfl, trivial⟩ rfl⟩

/-- A workflow whose two nodes form a dependency cycle: both start (and
stay) pending, the frontier is drained from the first instant. -/
def wCycle : WorkflowConfig :=
  { nodes := [.transform "none" "" none none, .transform "none" "" none none]
    edges := [{ source := 0, target := 1 }, { source := 1, target := 0 }] }

/-- A failing node next to a two-node dependency cycle with no path from the
failing node. -/
def wC1cex : WorkflowConfig :=
  { nodes := [.transform "python" "raise" none none,
              .transform "none" "" none none,
              .transform "none" "" none none]
    edges := [{ source := 1, target := 2 }, { source := 2, target := 1 }] }

/-- The state of `wC1cex` after node 0 ran and failed: the frontier is
drained, nodes 1 and 2 are still pending. -/
def c1state : EngState := markFailed (runNode wC1cex (initState wC1cex) 0) 0

theorem wC1cex_reach : Reachable oracleFail cfg0 wC1cex c1state :=
  Relation.ReflTransGen.tail
    (Relation.ReflTransGen.tail Relation.ReflTransGen.refl
      ⟨_, Step.drain (initState wC1cex) 0 (by decide) (by decide)⟩)
    ⟨_, Step.failSimple (runNode wC1cex (initState wC1cex) 0) 0 "boom" (by decide)
      ⟨.transform "python" "raise" none none, rfl, trivial⟩ rfl⟩

theorem wC1cex_no_path_from_0 : ∀ b, ¬depRel wC1cex 0 b := by
  intro b h
  rcases mem_deps.mp h with ⟨e, he, _, hs⟩
  simp only [wC1cex, List.mem_cons, List.not_mem_nil, or_false] at he
  rcases he with he | he
  · rw [he] at hs; exact absurd hs (by decide)
  · rw [he] at hs; exact absurd hs (by decide)

/-- Claim C2 — the amended statement.  When `ready` and `running` are both
empty (whatever `pending` holds), `has_work` is false, so the scheduling
loop of `_execute_workflow` exits; the terminal status is then `FAILED` with
the error `"Workflow completed with N failed nodes"` exactly when the failed
set is non-empty, and `COMPLETED` otherwise.  The reason string
`"deadlock / failed dependency"` is never produced, and the in-loop deadlock
branch (line 612) is unreachable: whenever `has_work` holds and `ready` is
empty, `running` is non-empty, so the loop sleeps instead. -/
theorem claim_C2_theorem (s : EngState)
    (hready : s.ready = ∅) (hrun : s.running = ∅) :
    hasWork s = false ∧
    finalState s =
      (if s.failed = ∅ then (.completed, none)
       else (.failed, some ("Workflow completed with " ++ toString s.failed.card ++
         " failed nodes"))) ∧
    (∀ st : EngState, hasWork st = true → st.ready = ∅ → st.running ≠ ∅) ∧
    (∀ st : EngState, (finalState st).2 ≠ some "deadlock / failed dependency") := by
  refine ⟨?_, ?_, ?_, ?_⟩
  · simp [hasWork, hready, hrun]
  · by_cases hf : s.failed = ∅ <;> simp [finalState, hf]
  · intro st hw hr
    simp [hasWork, hr] at hw
    exact fun h => by simp [h] at hw
  · intro st
    by_cases hf : st.failed = ∅ <;> simp [finalState, hf]
    intro h
    have h2 : ("Workflow completed with " ++ toString st.failed.card ++
        " failed nodes").data = ("deadlock / failed dependency").data := by rw [h]
    simp [String.data_append] at h2

theorem claim_C2_theorem_witness :
    hasWork (initState wCycle) = false ∧
    finalState (initState wCycle) =
      (if (initState wCycle).failed = ∅ then (.completed, none)
       else (.failed, some ("Workflow completed with " ++
         toString (initState wCycle).failed.card ++ " failed nodes"))) ∧
    (∀ st : EngState, hasWork st = true → st.ready = ∅ → st.running ≠ ∅) ∧
    (∀ st : EngState, (finalState st).2 ≠ some "deadlock / failed dependency") :=
  claim_C2_theorem (initState wCycle) (by decide) (by decide)

/-- Claim C2 — counterexample to the claim as stated.  The two-node cyclic
workflow `wCycle` starts in a state the scheduler has reached (the initial
state) with `ready = ∅`, `running = ∅` and `pending = {0, 1} ≠ ∅`, yet the
execution terminates `completed` with no error — not `failed` with reason
`"deadlock / failed dependency"`. -/
theorem claim_C2_counterexample :
    Reachable oracleFail cfg0 wCycle (initState wCycle) ∧
    (initState wCycle).ready = ∅ ∧
    (initState wCycle).running = ∅ ∧
    (initState wCycle).pending ≠ ∅ ∧
    hasWork (initState wCycle) = false ∧
    finalState (initState wCycle) = (.completed, none) := by
  refine ⟨Relation.ReflTransGen.refl, by decide, by decide, by decide, by decide, ?_⟩
  simp [finalState, initState]

/-- Claim C4 — the amended statement.  In every reachable state of an
execution of a workflow whose nodes are all of simple kinds (no `decision`,
`parallel` or `loop` routing), the five sets `pending`, `ready`, `running`,
`completed`, `failed` cover the full node index set and are pairwise
disjoint; in particular a failed node belongs to `failed` alone, never to
`completed` or `running`.  (As stated, with the four-set union, the claim
fails: a failed node leaves all four sets.) -/
theorem claim_C4_theorem {σ : Oracle} {cfg : AppConfig} {w : WorkflowConfig}
    {s : EngState} (hval : w.edgesValid) (hsimp : allSimple w)
    (hreach : Reachable σ cfg w s) :
    (∀ x, x ∈ nodeUniv w ↔
      (x ∈ s.pending ∨ x ∈ s.ready ∨ x ∈ s.running ∨ x ∈ s.completed ∨ x ∈ s.failed)) ∧
    (∀ x, x ∈ s.pending → x ∉ s.ready ∧ x ∉ s.running ∧ x ∉ s.completed ∧ x ∉ s.failed) ∧
    (∀ x, x ∈ s.ready → x ∉ s.running ∧ x ∉ s.completed ∧ x ∉ s.failed) ∧
    (∀ x, x ∈ s.running → x ∉ s.completed ∧ x ∉ s.failed) ∧
    (∀ x, x ∈ s.completed → x ∉ s.failed) ∧
    (∀ x, x ∈ s.failed → x ∉ s.completed ∧ x ∉ s.running) := by
  have hinv := inv_reachable hval hsimp hreach
  refine ⟨hinv.cover, ?_, ?_, ?_, hinv.dCF, ?_⟩
  · exact fun x hx => ⟨hinv.dPR x hx, hinv.dPN x hx, hinv.dPC x hx, hinv.dPF x hx⟩
  · exact fun x hx => ⟨hinv.dRN x hx, hinv.dRC x hx, hinv.dRF x hx⟩
  · exact fun x hx => ⟨hinv.dNC x hx, hinv.dNF x hx⟩
  · exact fun x hx => ⟨fun hc => hinv.dCF x hc hx, fun hr => hinv.dNF x hr hx⟩

theorem claim_C4_theorem_witness :
    0 ∈ nodeUniv wFail1 ↔
      (0 ∈ c4state.pending ∨ 0 ∈ c4state.ready ∨ 0 ∈ c4state.running ∨
       0 ∈ c4state.completed ∨ 0 ∈ c4state.failed) :=
  (@claim_C4_theorem oracleFail cfg0 wFail1 c4state (by decide) (by decide) wFail1_reach).1 0

/-- Claim C4 — counterexample to the claim as stated.  After the single
node of `wFail1` runs and fails (a reachable state), the union
`pending ∪ ready ∪ running ∪ completed` is empty and no longer equals the
full node index set `{0}`: the failed node has left all four sets and lives
in `failed` alone. -/
theorem claim_C4_counterexample :
    Reachable oracleFail cfg0 wFail1 c4state ∧
    c4state.pending ∪ c4state.ready ∪ c4state.running ∪ c4state.completed ≠
      nodeUniv wFail1 ∧
    c4state.failed = {0} := by
  refine ⟨wFail1_reach, by decide, by decide⟩

/-- The output and updated variables of a mapping-free pass-through
transform node (`transform_type` not `python`/`jinja2`): the executor returns
the input copy of `variables` and stores it under `transform_output`. -/
def tOut (s : EngState) : Val := .vdict s.vars

def tVars (s : EngState) : VarMap := vmSet s.vars "transform_output" (.vdict s.vars)

/-- A failing transform next to an independent pass-through transform (no
edges at all). -/
def wIndep : WorkflowConfig :=
  { nodes := [.transform "python" "raise" none none,
              .transform "none" "" none none]
    edges := [] }

def i1 : EngState := runNode wIndep (initState wIndep) 0
def i2 : EngState := markFailed i1 0
def i3 : EngState := runNode wIndep i2 1
def cIndepState : EngState := markCompleted wIndep { i3 with vars := tVars i3 } 1 (tOut i3)

theorem wIndep_reach : Reachable oracleFail cfg0 wIndep cIndepState :=
  Relation.ReflTransGen.tail
    (Relation.ReflTransGen.tail
      (Relation.ReflTransGen.tail
        (Relation.ReflTransGen.tail Relation.ReflTransGen.refl
          ⟨_, Step.drain (initState wIndep) 0 (by decide) (by decide)⟩)
        ⟨_, Step.failSimple i1 0 "boom" (by decide)
          ⟨.transform "python" "raise" none none, rfl, trivial⟩ rfl⟩)
      ⟨_, Step.drain i2 1 (by decide) (by decide)⟩)
    ⟨_, Step.doneSimple i3 1 (tOut i3) (tVars i3) (by decide)
      ⟨.transform "none" "" none none, rfl, trivial⟩ rfl⟩

theorem wIndep_no_dep : ∀ a b, ¬depRel wIndep a b := by
  intro a b h
  rcases mem_deps.mp h with ⟨e, he, _, _⟩
  exact absurd he (List.not_mem_nil e)

theorem wIndep_wf : WellFounded (depRel wIndep) :=
  ⟨fun n => Acc.intro n fun y hy => absurd hy (wIndep_no_dep y n)⟩

/-- Claim C1 — the amended statement.  For every execution of a workflow
with in-range edges and only simple node kinds: (a) a failure step moves the
node from `running` to `failed`, consumes its task, emits `node.failed`, and
leaves `pending` and `ready` untouched; (b) failures do not cascade — a
pending node one of whose dependencies has failed stays pending across every
scheduler step; (c) if additionally the dependency relation is well-founded,
then in any reachable state with a drained frontier every node that neither
failed itself nor has a failed ancestor is completed; (d) whenever the
failed set is non-empty at the drain, the terminal phase is `FAILED`.
(As stated the claim fails: nodes on a dependency cycle with no path from
the failed node never run to completion — see the counterexample.) -/
theorem claim_C1_theorem {σ : Oracle} {cfg : AppConfig} {w : WorkflowConfig}
    (hval : w.edgesValid) (hsimp : allSimple w) :
    (∀ s s' : EngState, ∀ n : Nat, Step σ cfg w s (.fail n) s' →
      s'.failed = insert n s.failed ∧ s'.running = s.running.erase n ∧
      s'.pending = s.pending ∧ s'.ready = s.ready ∧
      s'.events = s.events ++ [.node_failed n]) ∧
    (∀ s s' : EngState, ∀ l : StepLab, Reachable σ cfg w s → Step σ cfg w s l s' →
      ∀ m f : Nat, m ∈ s.pending → f ∈ deps w m → f ∈ s.failed → m ∈ s'.pending) ∧
    (∀ s : EngState, Reachable σ cfg w s → WellFounded (depRel w) →
      s.ready = ∅ → s.running = ∅ →
      ∀ m ∈ nodeUniv w, m ∉ s.failed →
        (∀ f ∈ s.failed, ¬isAncestor w f m) → m ∈ s.completed) ∧
    (∀ s : EngState, s.failed ≠ ∅ → (finalState s).1 = .failed) := by
  refine ⟨?_, ?_, ?_, ?_⟩
  · intro s s' n hstep
    cases hstep with
    | failSimple n err h hk hex => exact ⟨rfl, rfl, rfl, rfl, rfl⟩
    | failUserTimeout n h hk => exact ⟨rfl, rfl, rfl, rfl, rfl⟩
  · intro s s' l hreach hstep m f hm hf hff
    have hinv := inv_reachable hval hsimp hreach
    have hnotpromo : ∀ n, n ∈ s.running → m ∉ promoSet w s n := by
      intro n hn hpromo
      have hsub := (mem_promoSet.mp hpromo).2.2.2
      rcases Finset.mem_insert.mp (hsub hf) with h | h
      · rw [h] at hff; exact hinv.dNF n hn hff
      · exact hinv.dCF f h hff
    cases hstep with
    | drain n hn hc => rw [runNode_pending]; exact hm
    | doneSimple n out vars' h hk hex =>
        simp only [markCompleted, Finset.mem_sdiff]
        exact ⟨hm, hnotpromo n ((hinv.tasksIff n).mp h)⟩
    | failSimple n err h hk hex => exact hm
    | failUserTimeout n h hk => exact hm
    | doneUser n v h hk hv =>
        simp only [markCompleted, Finset.mem_sdiff]
        exact ⟨hm, hnotpromo n ((hinv.tasksIff n).mp h)⟩
    | provideInput n v hv => exact hm
    | doneDecision n cf branches h hn =>
        exact absurd (hsimp _ (List.get?_mem hn)) (by simp [NodeCfg.isSimple])
    | doneParallel n branches h hn =>
        exact absurd (hsimp _ (List.get?_mem hn)) (by simp [NodeCfg.isSimple])
    | doneLoop n mi bo cf cv body h hn =>
        exact absurd (hsimp _ (List.get?_mem hn)) (by simp [NodeCfg.isSimple])
  · intro s hreach hwf hready hrun
    exact drained_completed hval hsimp hwf hreach hready hrun
  · intro s hf
    simp [finalState, hf]

theorem claim_C1_theorem_witness : 1 ∈ cIndepState.completed :=
  (@claim_C1_theorem oracleFail cfg0 wIndep
    (by decide) (by decide)).2.2.1 cIndepState wIndep_reach wIndep_wf
    (by decide) (by decide) 1 (by decide) (by decide)
    (fun f hf => by
      have : f = 0 := by
        have h0 : cIndepState.failed = {0} := by decide
        rw [h0] at hf
        exact Finset.mem_singleton.mp hf
      rw [this]
      intro hanc
      rcases Relation.TransGen.head'_iff.mp hanc with ⟨b, hb, _⟩
      exact wIndep_no_dep 0 b hb)

/-- Claim C1 — counterexample to the claim as stated.  In workflow `wC1cex`
node 0 fails while nodes 1 and 2 form a dependency cycle with no edge path
from node 0.  The reachable state `c1state` has a drained frontier (the
execution terminates), node 1 never failed and has no path from the failed
node 0, yet node 1 is not completed — so a node on a branch with no path
from the failed node did not run to completion. -/
theorem claim_C1_counterexample :
    Reachable oracleFail cfg0 wC1cex c1state ∧
    hasWork c1state = false ∧
    c1state.failed = {0} ∧
    ¬isAncestor wC1cex 0 1 ∧
    1 ∉ c1state.failed ∧
    1 ∉ c1state.completed := by
  refine ⟨wC1cex_reach, by decide, by decide, ?_, by decide, by decide⟩
  intro h
  rcases Relation.TransGen.head'_iff.mp h with ⟨b, hb, _⟩
  exact wC1cex_no_path_from_0 b hb

/-- The parallel-routing workflow on which a node's output entry is written
twice: node 0 is a `parallel` node listing node 2 as a branch, the chain
`1 → 3 → 2` feeds node 2 through ordinary edges, and node 4 is an
independent `user_input` node whose task is still awaiting its future
while the rest of the workflow finishes — it keeps `is_complete` false
(4 of 5 nodes processed), so the scheduling loop's guard stays open for
the second drain of node 2. -/
def wPar : WorkflowConfig :=
  { nodes := [.parallel [2],
              .transform "none" "" none none,
              .transform "none" "" none none,
              .transform "none" "" none none,
              .user_input "give input" none]
    edges := [{ source := 1, target := 3 }, { source := 3, target := 2 }] }

def q1 : EngState := runNode wPar (initState wPar) 0
def q2 : EngState := runNode wPar q1 1
def q2b : EngState := runNode wPar q2 4
def q3 : EngState := markCompleted wPar (parallelStep q2b [2]).1 0 (parallelStep q2b [2]).2
def q4 : EngState := markCompleted wPar { q3 with vars := tVars q3 } 1 (tOut q3)
def q5 : EngState := runNode wPar q4 3
def q6 : EngState := runNode wPar q5 2
def q7 : EngState := markCompleted wPar { q6 with vars := tVars q6 } 3 (tOut q6)
def q8 : EngState := markCompleted wPar { q7 with vars := tVars q7 } 2 (tOut q7)
def q9 : EngState := runNode wPar q8 2
def c5state : EngState := markCompleted wPar { q9 with vars := tVars q9 } 2 (tOut q9)

theorem wPar_reach : Reachable oracleFail cfg0 wPar c5state :=
  Relation.ReflTransGen.tail
    (Relation.ReflTransGen.tail
      (Relation.ReflTransGen.tail
        (Relation.ReflTransGen.tail
          (Relation.ReflTransGen.tail
            (Relation.ReflTransGen.tail
              (Relation.ReflTransGen.tail
                (Relation.ReflTransGen.tail
                  (Relation.ReflTransGen.tail
                    (Relation.ReflTransGen.tail
                      (Relation.ReflTransGen.tail Relation.ReflTransGen.refl
                        ⟨_, Step.drain (initState wPar) 0 (by decide) (by decide)⟩)
                      ⟨_, Step.drain q1 1 (by decide) (by decide)⟩)
                    ⟨_, Step.drain q2 4 (by decide) (by decide)⟩)
                  ⟨_, Step.doneParallel q2b 0 [2] (by decide) rfl⟩)
                ⟨_, Step.doneSimple q3 1 (tOut q3) (tVars q3) (by decide)
                  ⟨.transform "none" "" none none, rfl, trivial⟩ rfl⟩)
              ⟨_, Step.drain q4 3 (by decide) (by decide)⟩)
            ⟨_, Step.drain q5 2 (by decide) (by decide)⟩)
          ⟨_, Step.doneSimple q6 3 (tOut q6) (tVars q6) (by decide)
            ⟨.transform "none" "" none none, rfl, trivial⟩ rfl⟩)
        ⟨_, Step.doneSimple q7 2 (tOut q7) (tVars q7) (by decide)
          ⟨.transform "none" "" none none, rfl, trivial⟩ rfl⟩)
      ⟨_, Step.drain q8 2 (by decide) (by decide)⟩)
    ⟨_, Step.doneSimple q9 2 (tOut q9) (tVars q9) (by decide)
      ⟨.transform "none" "" none none, rfl, trivial⟩ rfl⟩

/-- Claim C5 — the amended statement.  In every reachable state of an
execution of a workflow with in-range edges whose nodes are all simple
kinds, the write log of `outputs[n]` assignments has no duplicate (each
entry is written at most once), every written node is in `completed`, no
failed node was ever written, and the output store has an entry exactly for
the written nodes.  (As stated, over all workflows, the claim fails: with a
`parallel` node a branch target can be promoted to `ready` before its
dependencies complete, be drained twice, and have `outputs[n]` written
twice — see the counterexample.) -/
theorem claim_C5_theorem {σ : Oracle} {cfg : AppConfig} {w : WorkflowConfig}
    {s : EngState} (hval : w.edgesValid) (hsimp : allSimple w)
    (hreach : Reachable σ cfg w s) :
    s.outputWrites.Nodup ∧
    (∀ n ∈ s.outputWrites, n ∈ s.completed) ∧
    (∀ n ∈ s.failed, n ∉ s.outputWrites) ∧
    (∀ n, (alGet s.node_outputs n).isSome ↔ n ∈ s.outputWrites) := by
  have hinv := inv_reachable hval hsimp hreach
  refine ⟨hinv.writesNodup, hinv.writesCompleted, ?_, hinv.outputsDom⟩
  intro n hn hw
  exact hinv.dCF n (hinv.writesCompleted n hw) hn

theorem claim_C5_theorem_witness : cIndepState.outputWrites.Nodup :=
  (@claim_C5_theorem oracleFail cfg0 wIndep cIndepState (by decide) (by decide) wIndep_reach).1

/-- Claim C5 — counterexample to the claim as stated.  In the reachable
state `c5state` of the parallel workflow `wPar`, the write log of
`outputs[n]` assignments is `[0, 1, 3, 2, 2]`: node 2's entry was written
twice during one execution. -/
theorem claim_C5_counterexample :
    Reachable oracleFail cfg0 wPar c5state ∧
    c5state.outputWrites = [0, 1, 3, 2, 2] ∧
    c5state.outputWrites.count 2 = 2 ∧
    ¬c5state.outputWrites.Nodup := by
  refine ⟨wPar_reach, by decide, by decide, by decide⟩

/-- An oracle under which every python transform script returns `1`. -/
def oracleOne : Oracle :=
  { py := fun _ _ => .ok (.vint 1), jinja := fun _ _ => .error "jinja" }

/-- An oracle under which every python transform script returns `2`: the
same as `oracleOne` except for the value node 0's script produces. -/
def oracleTwo : Oracle :=
  { py := fun _ _ => .ok (.vint 2), jinja := fun _ _ => .error "jinja" }

/-- Two transform nodes with no edges between them (nor any other edge):
node 0 runs a python script, node 1 is a mapping-free pass-through. -/
def wC8 : WorkflowConfig :=
  { nodes := [.transform "python" "s" none none,
              .transform "none" "" none none]
    edges := [] }

def r1 : EngState := runNode wC8 (initState wC8) 0
def r2a : EngState :=
  markCompleted wC8 { r1 with vars := vmSet r1.vars "transform_output" (.vint 1) } 0 (.vint 1)
def r2b : EngState :=
  markCompleted wC8 { r1 with vars := vmSet r1.vars "transform_output" (.vint 2) } 0 (.vint 2)
def r3a : EngState := runNode wC8 r2a 1
def r3b : EngState := runNode wC8 r2b 1
def c8stateA : EngState := markCompleted wC8 { r3a with vars := tVars r3a } 1 (tOut r3a)
def c8stateB : EngState := markCompleted wC8 { r3b with vars := tVars r3b } 1 (tOut r3b)

theorem wC8_reachA : Reachable oracleOne cfg0 wC8 c8stateA :=
  Relation.ReflTransGen.tail
    (Relation.ReflTransGen.tail
      (Relation.ReflTransGen.tail
        (Relation.ReflTransGen.tail Relation.ReflTransGen.refl
          ⟨_, Step.drain (initState wC8) 0 (by decide) (by decide)⟩)
        ⟨_, Step.doneSimple r1 0 (.vint 1) (vmSet r1.vars "transform_output" (.vint 1))
          (by decide) ⟨.transform "python" "s" none none, rfl, trivial⟩ rfl⟩)
      ⟨_, Step.drain r2a 1 (by decide) (by decide)⟩)
    ⟨_, Step.doneSimple r3a 1 (tOut r3a) (tVars r3a) (by decide)
      ⟨.transform "none" "" none none, rfl, trivial⟩ rfl⟩

theorem wC8_reachB : Reachable oracleTwo cfg0 wC8 c8stateB :=
  Relation.ReflTransGen.tail
    (Relation.ReflTransGen.tail
      (Relation.ReflTransGen.tail
        (Relation.ReflTransGen.tail Relation.ReflTransGen.refl
          ⟨_, Step.drain (initState wC8) 0 (by decide) (by decide)⟩)
        ⟨_, Step.doneSimple r1 0 (.vint 2) (vmSet r1.vars "transform_output" (.vint 2))
          (by decide) ⟨.transform "python" "s" none none, rfl, trivial⟩ rfl⟩)
      ⟨_, Step.drain r2b 1 (by decide) (by decide)⟩)
    ⟨_, Step.doneSimple r3b 1 (tOut r3b) (tVars r3b) (by decide)
      ⟨.transform "none" "" none none, rfl, trivial⟩ rfl⟩

theorem wC8_no_path_from_0 : ¬isAncestor wC8 0 1 := by
  intro h
  rcases Relation.TransGen.head'_iff.mp h with ⟨b, hb, _⟩
  rcases mem_deps.mp hb with ⟨e, he, _, _⟩
  exact absurd he (List.not_mem_nil e)

/-- Claim C8 — the amended statement.  The channel through which a node
observes other nodes' results is the shared `context.variables` map, not the
edge list: the execute result (output value and updated variables) of a
mapping-free transform node is a function of the oracle and the variables
map alone — it is independent of the node-output store, the workflow's edge
list, and the node's own index. -/
theorem claim_C8_theorem (σ : Oracle) (cfg : AppConfig)
    (w w' : WorkflowConfig) (n n' : Nat) (tt ts : String) (s s' : EngState)
    (hn : w.nodes.get? n = some (.transform tt ts none none))
    (hn' : w'.nodes.get? n' = some (.transform tt ts none none))
    (hvars : s.vars = s'.vars) :
    execSimple σ cfg w n s = execSimple σ cfg w' n' s' := by
  simp only [execSimple, hn, hn', execNodeCfg, applyMapping, hvars]

theorem claim_C8_theorem_witness :
    execSimple oracleOne cfg0 wC8 1 (initState wC8) =
      execSimple oracleOne cfg0 wIndep 1 (initState wIndep) :=
  claim_C8_theorem oracleOne cfg0 wC8 wIndep 1 1 "none" "" (initState wC8)
    (initState wIndep) rfl rfl rfl

/-- Claim C8 — counterexample to the claim as stated.  Workflow `wC8` has no
edges at all, so there is no edge path from node 0 to node 1; the two runs
(under `oracleOne` and `oracleTwo`, identical schedules) differ only in the
output node 0's script produces, yet node 1's execute result — recorded in
`outputs[1]` — differs between the runs: node 0's output reached node 1
through the shared variables map. -/
theorem claim_C8_counterexample :
    Reachable oracleOne cfg0 wC8 c8stateA ∧
    Reachable oracleTwo cfg0 wC8 c8stateB ∧
    ¬isAncestor wC8 0 1 ∧
    alGet c8stateA.node_outputs 1 = some (.vdict [("transform_output", .vint 1)]) ∧
    alGet c8stateB.node_outputs 1 = some (.vdict [("transform_output", .vint 2)]) ∧
    alGet c8stateA.node_outputs 1 ≠ alGet c8stateB.node_outputs 1 := by
  refine ⟨wC8_reachA, wC8_reachB, wC8_no_path_from_0, rfl, rfl, ?_⟩
  intro h
  have h1 : alGet c8stateA.node_outputs 1 =
      some (.vdict [("transform_output", .vint 1)]) := rfl
  have h2 : alGet c8stateB.node_outputs 1 =
      some (.vdict [("transform_output", .vint 2)]) := rfl
  rw [h1, h2] at h
  simp at h

/-! Engine-level state: `WorkflowEngine.cancel_execution` and
`WorkflowEngine.provide_user_input`. -/

/-- Lookup in a `String`-keyed dict (`executions`, `contexts`). -/
def sGet {α : Type} (m : List (String × α)) (k : String) : Option α :=
  (m.find? (fun p => p.1 = k)).map (·.2)

/-- Assignment in a `String`-keyed dict: replace in place or append. -/
def sSet {α : Type} : List (String × α) → String → α → List (String × α)
  | [], k, v => [(k, v)]
  | p :: ps, k, v => if p.1 = k then (k, v) :: ps else p :: sSet ps k v

theorem sGet_sSet_self {α : Type} (m : List (String × α)) (k : String) (v : α) :
    sGet (sSet m k v) k = some v := by
  induction m with
  | nil => simp [sGet, sSet]
  | cons p ps ih =>
    by_cases h : p.1 = k <;> simp [sSet, sGet, h] at ih ⊢
    exact ih

/-- The fields of `WorkflowExecutionState` (`workflow_engine.py:25-36`) that
`cancel_execution` touches. -/
structure ExecutionState where
  status : WorkflowNodeStatus
  error : Option String := none
  end_time : Option Nat := none
deriving DecidableEq, Repr

/-- The engine state `cancel_execution` operates on: the `executions` table,
the `execution_tasks` table (modelled by its key set — entries are added by
`start_workflow` and never removed) and the `contexts` table (modelled by
its key set, which only gates the `WORKFLOW_CANCELLED` emission). -/
structure Engine where
  executions : List (String × ExecutionState)
  execution_tasks : List String
  context_ids : List String
  events : List EventK

/-- `WorkflowEngine.cancel_execution` (`workflow_engine.py:772-790`): if a
task exists for the id, cancel it, then — if an execution state exists —
set its status to `FAILED`, its error to `"Cancelled by user"`, its end time
to now, and — if a context exists — emit `WORKFLOW_CANCELLED`.  No check of
the previous status is made. -/
def cancel_execution (eng : Engine) (execution_id : String) (now : Nat) : Engine :=
  if execution_id ∈ eng.execution_tasks then
    match sGet eng.executions execution_id with
    | some st =>
      let st' : ExecutionState :=
        { st with status := .failed, error := some "Cancelled by user",
                  end_time := some now }
      let eng' := { eng with executions := sSet eng.executions execution_id st' }
      if execution_id ∈ eng.context_ids then
        { eng' with events := eng'.events ++ [.workflow_cancelled] }
      else eng'
    | none => eng
  else eng

/-- Claim C3 — the amended statement.  `cancel_execution` on an id with a
task and an execution state sets the status to `FAILED` (not a `cancelled`
status — `WorkflowNodeStatus` has no such member) with error
`"Cancelled by user"`, regardless of the previous status; a second cancel
yields the same status and error as a single call (idempotent up to the
refreshed end time). -/
theorem cancel_execution_spec (eng : Engine) (id : String) (now : Nat)
    (st : ExecutionState) (htask : id ∈ eng.execution_tasks)
    (hst : sGet eng.executions id = some st) :
    sGet (cancel_execution eng id now).executions id =
      some { status := .failed, error := some "Cancelled by user",
             end_time := some now } ∧
    (cancel_execution eng id now).execution_tasks = eng.execution_tasks := by
  unfold cancel_execution
  rw [if_pos htask, hst]
  by_cases hc : id ∈ eng.context_ids <;> simp [hc, sGet_sSet_self]

/-- Claim C3 — the amended statement.  `cancel_execution` on an id with a
task and an execution state sets the status to `FAILED` (not a `cancelled`
status — `WorkflowNodeStatus` has no such member) with error
`"Cancelled by user"`, regardless of the previous status; a second cancel
yields the same status and error as a single call (idempotent up to the
refreshed end time). -/
theorem claim_C3_theorem (eng : Engine) (id : String) (now now2 : Nat)
    (st : ExecutionState) (htask : id ∈ eng.execution_tasks)
    (hst : sGet eng.executions id = some st) :
    (sGet (cancel_execution eng id now).executions id =
      some { status := .failed, error := some "Cancelled by user",
             end_time := some now }) ∧
    ((sGet (cancel_execution (cancel_execution eng id now) id now2).executions id).map
        ExecutionState.status =
      (sGet (cancel_execution eng id now).executions id).map ExecutionState.status) ∧
    ((sGet (cancel_execution (cancel_execution eng id now) id now2).executions id).map
        ExecutionState.error =
      (sGet (cancel_execution eng id now).executions id).map ExecutionState.error) := by
  obtain ⟨h1, ht1⟩ := cancel_execution_spec eng id now st htask hst
  obtain ⟨h2, -⟩ := cancel_execution_spec (cancel_execution eng id now) id now2 _
    (ht1 ▸ htask) h1
  refine ⟨h1, ?_, ?_⟩ <;> rw [h1, h2] <;> rfl

/-- A concrete engine with one execution that has already terminated with
status `COMPLETED`. -/
def engC3 : Engine :=
  { executions := [("e1", { status := .completed })]
    execution_tasks := ["e1"]
    context_ids := ["e1"]
    events := [] }

theorem claim_C3_theorem_witness :
    sGet (cancel_execution engC3 "e1" 5).executions "e1" =
      some { status := .failed, error := some "Cancelled by user",
             end_time := some 5 } :=
  (claim_C3_theorem engC3 "e1" 5 6 { status := .completed }
    (by decide) (by decide)).1

/-- Claim C3 — counterexample to the claim as stated.  The execution `e1`
of `engC3` has already terminated (status `COMPLETED`), yet
`cancel_execution` overwrites its terminal state to `FAILED` with error
`"Cancelled by user"` — the terminal state is neither preserved nor
`cancelled` (the source's `WorkflowNodeStatus` enum has no `cancelled`
member at all). -/
theorem claim_C3_counterexample :
    sGet engC3.executions "e1" =
      some { status := .completed, error := none, end_time := none } ∧
    sGet (cancel_execution engC3 "e1" 5).executions "e1" =
      some { status := .failed, error := some "Cancelled by user",
             end_time := some 5 } ∧
    WorkflowNodeStatus.failed ≠ WorkflowNodeStatus.completed := by
  refine ⟨by decide, by decide, by decide⟩

/-- Raised Python exceptions of `provide_user_input`. -/
inductive PyErr where
  | valueError (msg : String)
  | invalidState
deriving DecidableEq, Repr

/-- The engine state `provide_user_input` operates on: the `contexts`
table, whose entries carry `pending_user_inputs`, and the emitted events. -/
structure Engine9 where
  contexts : List (String × EngState)
  events : List EventK

/-- `asyncio.Future.set_result`: resolve a pending future, raise
`InvalidStateError` if the future is already resolved (Python stdlib
semantics; the future is left unchanged by the failed call). -/
def futureSetResult (f : Option Val) (v : Val) : Except PyErr (Option Val) :=
  match f with
  | none => .ok (some v)
  | some _ => .error .invalidState

/-- `WorkflowEngine.provide_user_input` (`workflow_engine.py:743-762`):
missing execution id → `ValueError`; missing future for the node index →
`ValueError` (`"No pending input for node: …"` — only a *missing* entry is
falsy, a resolved `asyncio.Future` is truthy and passes the check); then
`future.set_result(user_input)` and, on success, emit
`USER_INPUT_RECEIVED`.  The resolved future is never removed from the
table.  (`node_id` is `int(node_id)`-converted in the source; the model
takes the node index directly.) -/
def provide_user_input (eng : Engine9) (execution_id : String) (node_index : Nat)
    (user_input : Val) : Except PyErr Engine9 :=
  match sGet eng.contexts execution_id with
  | none => .error (.valueError ("Execution not found: " ++ execution_id))
  | some ctx =>
    match alGet ctx.pending_user_inputs node_index with
    | none => .error (.valueError ("No pending input for node: " ++ toString node_index))
    | some f =>
      match futureSetResult f user_input with
      | .error e => .error e
      | .ok f' =>
        let ctx' : EngState :=
          { ctx with pending_user_inputs := alSet ctx.pending_user_inputs node_index f' }
        .ok { contexts := sSet eng.contexts execution_id ctx'
              events := eng.events ++ [.user_input_received node_index] }

/-- The context after a successful `provide_user_input`: the future for the
node is resolved but still present in the table. -/
def puiCtx (ctx : EngState) (n : Nat) (v : Val) : EngState :=
  { ctx with pending_user_inputs := alSet ctx.pending_user_inputs n (some v) }

/-- The engine state after a successful `provide_user_input`. -/
def puiNext (eng : Engine9) (eid : String) (n : Nat) (v : Val) (ctx : EngState) : Engine9 :=
  { contexts := sSet eng.contexts eid (puiCtx ctx n v)
    events := eng.events ++ [.user_input_received n] }

/-- Claim C9 — confirmed.  After a successful `provide_user_input`, the
resolved future remains in the pending-user-input table; a second call for
the same `(execution_id, node_index)` passes the "no pending input" check
and instead fails with `InvalidStateError` from resolving an
already-resolved future, and — since the error is raised before the
emission and the state is unchanged — no second `user.input_received` event
is emitted. -/
theorem claim_C9_theorem (eng : Engine9) (eid : String) (n : Nat) (v v2 : Val)
    (ctx : EngState) (hctx : sGet eng.contexts eid = some ctx)
    (hf : alGet ctx.pending_user_inputs n = some none) :
    provide_user_input eng eid n v = .ok (puiNext eng eid n v ctx) ∧
    alGet (puiCtx ctx n v).pending_user_inputs n = some (some v) ∧
    (puiNext eng eid n v ctx).events = eng.events ++ [.user_input_received n] ∧
    provide_user_input (puiNext eng eid n v ctx) eid n v2 = .error .invalidState := by
  refine ⟨?_, alGet_alSet_self _ _ _, rfl, ?_⟩
  · simp [provide_user_input, hctx, hf, futureSetResult, puiNext, puiCtx]
  · simp [provide_user_input, puiNext, puiCtx, sGet_sSet_self, alGet_alSet_self,
      futureSetResult]

/-- A concrete execution context whose node 0 awaits user input. -/
def ctx9c : EngState :=
  { initState wFail1 with pending_user_inputs := [(0, none)] }

/-- A concrete engine with one context whose node 0 awaits user input. -/
def eng9c : Engine9 :=
  { contexts := [("e", ctx9c)], events := [] }

theorem claim_C9_theorem_witness :
    provide_user_input (puiNext eng9c "e" 0 (.vint 7) ctx9c) "e" 0 (.vint 8) =
      .error .invalidState :=
  (claim_C9_theorem eng9c "e" 0 (.vint 7) (.vint 8) ctx9c rfl rfl).2.2.2

/-! The `EventBus` of `src/app/workflow.py` (claim C6). -/

/-- An in-process handler subscribed on the bus: an identity and whether
invoking it raises (exercising the `except` branch of `emit`). -/
structure Handler where
  hid : Nat
  raises : Bool
deriving DecidableEq, Repr

/-- The event the bus transports (`workflow.py`'s `Event`), restricted to
the fields `emit` reads: delivery is steered by `event.type.value` only. -/
structure BusEvent where
  eid : String
  etype : String
  timestamp : Nat
deriving DecidableEq, Repr

/-- `EventBus.__init__` (`workflow.py:26-28`): a `defaultdict(list)` of
listeners and a plain unbounded list as history — no capacity parameter
exists. -/
structure EventBus where
  listeners : List (String × List Handler)
  event_history : List BusEvent
deriving DecidableEq, Repr

/-- `EventBus.subscribe` (`workflow.py:30-32`). -/
def EventBus.subscribe (bus : EventBus) (event_type : String) (h : Handler) : EventBus :=
  let hs := (sGet bus.listeners event_type).getD []
  { bus with listeners := sSet bus.listeners event_type (hs ++ [h]) }

/-- One observable action of `emit`, in program order. -/
inductive BusAction where
  | append (e : BusEvent)
  | call (hid : Nat) (raised : Bool)
deriving DecidableEq, Repr

/-- The handlers matching an event: the type's list then the wildcard
list (`workflow.py:44`). -/
def matchingHandlers (bus : EventBus) (e : BusEvent) : List Handler :=
  ((sGet bus.listeners e.etype).getD []) ++ ((sGet bus.listeners "*").getD [])

/-- `EventBus.emit` (`workflow.py:39-53`): append the event to the history
first, then invoke every matching handler in order, each call wrapped in
`try/except` so a raising handler is logged and skipped.  The returned
action trace records the program order: the append, then one `call` per
handler (with its raise flag). -/
def EventBus.emit (bus : EventBus) (e : BusEvent) : EventBus × List BusAction :=
  let bus' := { bus with event_history := bus.event_history ++ [e] }
  (bus', .append e :: (matchingHandlers bus e).map (fun h => .call h.hid h.raises))

/-- `EventBus.clear_history` (`workflow.py:55-57`). -/
def EventBus.clear_history (bus : EventBus) : EventBus :=
  { bus with event_history := [] }

/-- Claim C6 — the amended statement.  `emit` delivers to every handler
subscribed to the event's type and to every handler subscribed to the
wildcard `*`, in that order; an exception in one handler does not prevent
the calls to the remaining handlers (every matching handler has a `call`
action in the trace, whatever the raise flags are); and the event is
appended to the history *before* delivery, growing the history by exactly
one — the history is an unbounded list, not a bounded ring fixed at
construction. -/
theorem claim_C6_theorem (bus : EventBus) (e : BusEvent) :
    ((bus.emit e).1.event_history = bus.event_history ++ [e]) ∧
    ((bus.emit e).1.event_history.length = bus.event_history.length + 1) ∧
    (∀ h ∈ matchingHandlers bus e, .call h.hid h.raises ∈ (bus.emit e).2) ∧
    ((bus.emit e).2.head? = some (.append e)) ∧
    ((bus.emit e).1.listeners = bus.listeners) := by
  refine ⟨rfl, by simp [EventBus.emit], ?_, rfl, rfl⟩
  intro h hh
  simp only [EventBus.emit, List.mem_cons]
  exact Or.inr (List.mem_map_of_mem _ hh)

/-- A bus with a raising handler on topic `x` and a well-behaved wildcard
handler. -/
def busC6 : EventBus :=
  { listeners := [("x", [⟨1, true⟩]), ("*", [⟨2, false⟩])], event_history := [] }

def evC6 : BusEvent := { eid := "e0", etype := "x", timestamp := 0 }

/-- Claim C6 — counterexample to the claim as stated.  On `busC6`, the
first action of `emit` is the history append: the event is appended
*before* delivery, not after it; and three consecutive emits grow the
history to length 3 — there is no ring capacity fixed at construction
(`__init__` takes no capacity and `emit` never truncates). -/
theorem claim_C6_counterexample :
    (busC6.emit evC6).2 = [.append evC6, .call 1 true, .call 2 false] ∧
    (busC6.emit evC6).2.head? = some (.append evC6) ∧
    (((busC6.emit evC6).1.emit evC6).1.emit evC6).1.event_history =
      [evC6, evC6, evC6] := by
  refine ⟨by decide, by decide, by decide⟩

/-! `Workflow.link` of `src/app/schema.py`, `create_node` of
`src/app/nodes.py`, and the executor dispatch of
`WorkflowEngine._execute_node` (claim C7). -/

/-- A field value of a schema node: `None`, a string, a list of sub-slot
names, a mapping, or an opaque payload. -/
inductive SVal where
  | snone
  | sstr (s : String)
  | slist (keys : List String)
  | smap (m : List (String × SVal))
  | sint (n : Int)

/-- A field of a schema node: its value and whether the field is annotated
`FieldRole.MULTI_INPUT` or `FieldRole.MULTI_OUTPUT`. -/
structure SField where
  multi : Bool
  value : SVal

/-- A node of `schema.py`'s `Workflow`: a `type` tag and named fields. -/
structure SNode where
  type : String
  fields : List (String × SField)

/-- An `Edge` of `schema.py` (line 67). -/
structure SEdge where
  source : Nat
  target : Nat
  source_slot : String
  target_slot : String

/-- An `InfoConfig`, restricted to the `name` field the manager reads. -/
structure SInfo where
  name : Option String

/-- `schema.py`'s `Workflow` (line 678), restricted to the fields `link`
and the manager read. -/
structure SWorkflow where
  info : Option SInfo
  nodes : List SNode
  edges : List SEdge

/-- `getattr(node, name)`: `AttributeError` when the field is missing. -/
def getattrS (n : SNode) (name : String) : Except String SVal :=
  match sGet n.fields name with
  | some f => .ok f.value
  | none => .error ("AttributeError: " ++ name)

/-- `setattr(node, name, v)`: overwrite the field's value (keeping its
role annotation). -/
def setattrS (n : SNode) (name : String) (v : SVal) : SNode :=
  { n with fields := n.fields.map (fun p =>
      if p.1 = name then (p.1, { p.2 with value := v }) else p) }

/-- `src_value[key]`: `KeyError`/`TypeError` on a missing key or a
non-mapping value. -/
def svalIndex (v : SVal) (k : String) : Except String SVal :=
  match v with
  | .smap m =>
    match sGet m k with
    | some x => .ok x
    | none => .error ("KeyError: " ++ k)
  | _ => .error "TypeError: value is not subscriptable"

/-- `base, *parts = slot.split(".")`. -/
def splitSlot (s : String) : String × List String :=
  match s.splitOn "." with
  | [] => ("", [])
  | b :: rest => (b, rest)

/-- The first loop of `Workflow.link` (`schema.py:690-698`): every
multi-role field whose value is a list of sub-names becomes a mapping from
sub-name to `None`.  The node's `type` tag is never inspected. -/
def linkFlattenNode (n : SNode) : SNode :=
  { n with fields := n.fields.map (fun p =>
      if p.2.multi then
        match p.2.value with
        | .slist keys =>
            (p.1, { p.2 with value := .smap (keys.dedup.map (fun k => (k, SVal.snone))) })
        | _ => p
      else p) }

/-- The per-edge constant propagation of `Workflow.link`
(`schema.py:700-714`): read the producer's slot (with one optional dotted
sub-key), write it into the consumer's slot.  Errors are the
`IndexError`/`AttributeError`/`KeyError` paths of the source; no error ever
depends on a node's `type` tag. -/
def linkEdge (nodes : List SNode) (e : SEdge) : Except String (List SNode) := do
  match nodes.get? e.source, nodes.get? e.target with
  | some sn, some tn => do
    let (srcBase, srcParts) := splitSlot e.source_slot
    let v0 ← getattrS sn srcBase
    let v ← match srcParts with
      | [] => .ok v0
      | p :: _ => svalIndex v0 p
    let (dstBase, dstParts) := splitSlot e.target_slot
    match dstParts with
    | [] => .ok (nodes.set e.target (setattrS tn dstBase v))
    | p :: _ => do
      let f ← getattrS tn dstBase
      match f with
      | .smap m => .ok (nodes.set e.target (setattrS tn dstBase (.smap (sSet m p v))))
      | _ => .error "TypeError: field does not support item assignment"
  | _, _ => .error "IndexError: node index out of range"

/-- `Workflow.link` (`schema.py:689-714`): flatten the multi slots of every
node, then propagate each edge.  There is no node-type validation
anywhere in `link`. -/
def SWorkflow.link (w : SWorkflow) : Except String SWorkflow := do
  let nodes1 := w.nodes.map linkFlattenNode
  let nodes2 ← w.edges.foldlM linkEdge nodes1
  .ok { w with nodes := nodes2 }

/-- The keys of the `_NODE_TYPES` table of `src/app/nodes.py:395-440`. -/
def nodeTypesKeys : List String :=
  ["native_string", "native_integer", "native_float", "native_boolean",
   "native_list", "native_dict",
   "data", "data_text", "data_document", "data_image", "data_audio",
   "data_video", "data_model3d", "data_binary",
   "info_config", "backend_config", "model_config", "embedding_config",
   "content_db_config", "index_db_config", "memory_manager_config",
   "session_manager_config", "knowledge_manager_config", "tool_config",
   "agent_options_config", "agent_config", "workflow_options_config",
   "start_node", "end_node", "sink_node", "pass_through_node", "route_node",
   "combine_node", "merge_node", "transform_node", "user_input_node",
   "tool_node", "agent_node",
   "tool_call", "agent_chat"]

/-- The class `create_node` instantiates: a registered class or the
`WFBaseType` fallback. -/
inductive WFNodeClass where
  | cls (tag : String)
  | base
deriving DecidableEq, Repr

/-- `create_node` (`src/app/nodes.py:443-445`):
`_NODE_TYPES.get(node.type, WFBaseType)` — an unknown tag silently falls
back to the base class; nothing is rejected. -/
def create_node (tag : String) : WFNodeClass :=
  if tag ∈ nodeTypesKeys then .cls tag else .base

/-- The keys of the engine's executor table
(`workflow_engine.py:530-542`). -/
def engineExecutorTags : List String :=
  ["start", "end", "decision", "merge", "parallel", "loop", "agent",
   "prompt", "transform", "tool", "user_input"]

/-- The dispatch fragment of `WorkflowEngine._execute_node`
(`workflow_engine.py:689-692`): `self.executors.get(node.type)`, raising
`ValueError` at runtime when no executor is registered for the tag. -/
def executeNodeDispatch (t : String) : Except String String :=
  if t ∈ engineExecutorTags then .ok t
  else .error ("No executor for node type: " ++ t)

/-- A workflow holding a single node with the given type tag and no
fields or edges. -/
def singleNodeWf (tag : String) : SWorkflow :=
  { info := none, nodes := [{ type := tag, fields := [] }], edges := [] }

/-- Claim C7 — the amended statement.  Unknown type tags are *not*
rejected at link time: `Workflow.link` performs no type-tag validation and
succeeds on a workflow containing a node of any tag whatsoever;
`create_node` silently falls back to the base class for a tag outside its
table; and in the engine a node whose tag has no registered executor first
fails at runtime, inside `_execute_node`, with
`"No executor for node type: …"`. -/
theorem claim_C7_theorem (tag : String) (hu : tag ∉ engineExecutorTags) :
    SWorkflow.link (singleNodeWf tag) = .ok (singleNodeWf tag) ∧
    (tag ∉ nodeTypesKeys → create_node tag = .base) ∧
    executeNodeDispatch tag = .error ("No executor for node type: " ++ tag) := by
  refine ⟨rfl, ?_, ?_⟩
  · intro hk
    simp [create_node, hk]
  · simp [executeNodeDispatch, hu]

theorem claim_C7_theorem_witness :
    SWorkflow.link (singleNodeWf "quantum_node") = .ok (singleNodeWf "quantum_node") ∧
    executeNodeDispatch "quantum_node" =
      .error ("No executor for node type: " ++ "quantum_node") :=
  ⟨(claim_C7_theorem ("quantum_node") (by decide)).1,
   (claim_C7_theorem ("quantum_node") (by decide)).2.2⟩

/-- Claim C7 — counterexample to the claim as stated.  The workflow with
one node of the unknown tag `"quantum_node"` passes `link` without any
error, `create_node` builds a base-class wrapper instead of rejecting it,
and the unknown tag first surfaces as an error at runtime when
`_execute_node` finds no executor. -/
theorem claim_C7_counterexample :
    SWorkflow.link (singleNodeWf "quantum_node") = .ok (singleNodeWf "quantum_node") ∧
    create_node "quantum_node" = .base ∧
    executeNodeDispatch "quantum_node" = .error "No executor for node type: quantum_node" := by
  refine ⟨rfl, by decide, rfl⟩

/-! `WorkflowManager.add` of `src/app/manager.py` (claim C10).  Python
objects are mutable and aliased; to state that `add` does not touch the
caller's object, workflow objects live on an explicit heap of references,
`copy.deepcopy` allocates a fresh reference carrying the same value, and
the in-place `wf.link()` is a store at the copy's reference. -/

/-- The heap of workflow objects: reference → value. -/
abbrev Heap := List (Nat × SWorkflow)

/-- A reference unused by the heap (any number above every key). -/
def freshRef (h : Heap) : Nat :=
  (h.map (fun p => p.1)).foldr max 0 + 1

theorem le_foldr_max (l : List Nat) : ∀ k ∈ l, k ≤ l.foldr max 0 := by
  induction l with
  | nil => intro k hk; exact absurd hk (List.not_mem_nil k)
  | cons a as ih =>
    intro k hk
    rcases List.mem_cons.mp hk with hk | hk
    · rw [hk]; exact le_max_left _ _
    · exact le_trans (ih k hk) (le_max_right _ _)

theorem freshRef_not_key (h : Heap) : ∀ k ∈ h.map (fun p => p.1), k ≠ freshRef h := by
  intro k hk
  have := le_foldr_max (h.map (fun p => p.1)) k hk
  unfold freshRef
  omega

theorem alGet_mem_keys {α : Type} {m : List (Nat × α)} {k : Nat} {v : α}
    (h : alGet m k = some v) : k ∈ m.map (fun p => p.1) := by
  induction m with
  | nil => simp [alGet] at h
  | cons p ps ih =>
    by_cases hp : p.1 = k
    · simp [hp]
    · simp only [alGet] at h ih
      rw [List.find?_cons_of_neg _ (by simp [hp])] at h
      simp [ih h]

/-- The manager state `add` touches: the id counter and the name-keyed
store (each stored entry's `"workflow"` field is a heap reference). -/
structure WorkflowManager where
  current_id : Nat
  workflows : List (String × Nat)

/-- The name-resolution fallback of `add` (`manager.py:60-65`): the copied
workflow's `info.name` if truthy, else `workflow_{N}` with the bumped
counter. -/
def addName (wfv : SWorkflow) (mgr : WorkflowManager) : WorkflowManager × String :=
  match wfv.info with
  | some info =>
    match info.name with
    | some nm =>
      if nm ≠ "" then (mgr, nm)
      else ({ mgr with current_id := mgr.current_id + 1 },
            "workflow_" ++ toString (mgr.current_id + 1))
    | none => ({ mgr with current_id := mgr.current_id + 1 },
               "workflow_" ++ toString (mgr.current_id + 1))
  | none => ({ mgr with current_id := mgr.current_id + 1 },
             "workflow_" ++ toString (mgr.current_id + 1))

/-- `WorkflowManager.add` (`manager.py:58-71`): deep-copy the argument to a
fresh reference, resolve the name (explicit argument if truthy, else the
copy's `info.name`, else `workflow_{N}`), run `link()` in place on the
copy, store the copy's reference under the name.  The caller's reference
`r` is never written. -/
def WorkflowManager.add (h : Heap) (mgr : WorkflowManager) (r : Nat)
    (name : Option String) : Except String (Heap × WorkflowManager × String) :=
  match alGet h r with
  | none => .error "invalid reference"
  | some wfv =>
    let r' := freshRef h
    let h1 := alSet h r' wfv
    let p :=
      match name with
      | some s => if s ≠ "" then (mgr, s) else addName wfv mgr
      | none => addName wfv mgr
    match wfv.link with
    | .error e => .error e
    | .ok linked =>
      let h2 := alSet h1 r' linked
      .ok (h2, { p.1 with workflows := sSet p.1.workflows p.2 r' }, p.2)

/-- Claim C10 — confirmed.  `add` stores a deep copy and links only the
copy: after `add` returns, the caller's object (reference `r`) still holds
its original value — the `link` step did not modify it; the stored
reference is a fresh one, distinct from `r`, holding the linked copy; and
any later mutation the caller performs on its own object leaves the stored
definition unchanged. -/
theorem claim_C10_theorem (h : Heap) (mgr : WorkflowManager) (r : Nat)
    (name : Option String) (wfv linked : SWorkflow)
    (h2 : Heap) (mgr2 : WorkflowManager) (nm : String)
    (hr : alGet h r = some wfv) (hlink : wfv.link = .ok linked)
    (hadd : WorkflowManager.add h mgr r name = .ok (h2, mgr2, nm)) :
    alGet h2 r = some wfv ∧
    sGet mgr2.workflows nm = some (freshRef h) ∧
    freshRef h ≠ r ∧
    alGet h2 (freshRef h) = some linked ∧
    (∀ wfNew : SWorkflow,
      alGet (alSet h2 r wfNew) (freshRef h) = some linked) := by
  have hner : freshRef h ≠ r :=
    fun he => freshRef_not_key h r (alGet_mem_keys hr) he.symm
  have hrne : r ≠ freshRef h := fun he => hner he.symm
  simp only [WorkflowManager.add, hr, hlink] at hadd
  injection hadd with hadd
  injection hadd with hh hadd
  injection hadd with hm hn
  subst hh
  subst hm
  subst hn
  refine ⟨?_, ?_, hner, ?_, ?_⟩
  · rw [alGet_alSet_ne _ hrne, alGet_alSet_ne _ hrne]
    exact hr
  · exact sGet_sSet_self _ _ _
  · exact alGet_alSet_self _ _ _
  · intro wfNew
    rw [alGet_alSet_ne _ hner]
    exact alGet_alSet_self _ _ _

/-- A concrete heap holding one workflow object at reference 0. -/
def wf10 : SWorkflow := singleNodeWf "transform_node"

def h10 : Heap := [(0, wf10)]

def mgr10 : WorkflowManager := { current_id := 0, workflows := [] }

def h10' : Heap := [(0, wf10), (1, wf10)]

def mgr10' : WorkflowManager := { current_id := 1, workflows := [("workflow_1", 1)] }

theorem claim_C10_theorem_witness :
    sGet mgr10'.workflows "workflow_1" = some (freshRef h10) :=
  (claim_C10_theorem h10 mgr10 0 none wf10 wf10 h10' mgr10' "workflow_1"
    rfl rfl rfl).2.1

end Meshade
